import Mathlib

/-!
# endato-checker: throttle, validation, parser, retry loop and dispatcher

A shallow embedding of `src/worker.js`, `src/sorter.js` and `src/index.js`.

Conventions of the embedding.
* A JavaScript string is a list of characters (`JsString`).  For text of the
  Basic Multilingual Plane characters and UTF-16 code units coincide.
* `null` / `undefined` are `none`.
* JavaScript numbers that only ever hold integers (counters, ages, task
  counts) are `Int`.
* Module-level mutable variables of a worker become fields of a state record
  that is passed explicitly.
-/

namespace Endato

/-- A JavaScript string. -/
abbrev JsString := List Char

/-! ## worker.js: adaptive throttle (lines 25-27, 101-117) -/

/-- The two module-level variables of `worker.js` that `adjustConcurrency`
reads and writes: `maxConcurrentRequests` and `requestErrors`.  (`limit` is
rebuilt from `maxConcurrentRequests` and carries no further information.) -/
structure Throttle where
  maxConcurrentRequests : Int
  requestErrors : Int
  deriving DecidableEq, Repr

/-- Initial values of the module-level variables, `worker.js` lines 26-27. -/
def Throttle.init (MAX_CONCURRENT_REQUESTS : Int) : Throttle :=
  { maxConcurrentRequests := MAX_CONCURRENT_REQUESTS, requestErrors := 0 }

/-- The function `adjustConcurrency(error)` of `worker.js`, lines 101-117. -/
def adjustConcurrency (MAX_CONCURRENT_REQUESTS : Int) (s : Throttle) (error : Bool) : Throttle :=
  if error then
    let requestErrors := s.requestErrors + 1
    if requestErrors > 5 ∧ s.maxConcurrentRequests > 1 then
      { maxConcurrentRequests := s.maxConcurrentRequests - 1, requestErrors := 0 }
    else
      { maxConcurrentRequests := s.maxConcurrentRequests, requestErrors := requestErrors }
  else
    if s.requestErrors = 0 ∧ s.maxConcurrentRequests < MAX_CONCURRENT_REQUESTS then
      { maxConcurrentRequests := s.maxConcurrentRequests + 1, requestErrors := s.requestErrors }
    else
      s

/-- A finite sequence of `adjustConcurrency` calls, applied left to right. -/
def adjustMany (MAX_CONCURRENT_REQUESTS : Int) (s : Throttle) (calls : List Bool) : Throttle :=
  calls.foldl (adjustConcurrency MAX_CONCURRENT_REQUESTS) s

/-! ## JavaScript string primitives used by the sources -/

/-- Characters removed by `String.prototype.trim`, skipped by `parseInt` and
matched by `\s`: ECMAScript WhiteSpace and LineTerminator. -/
def isJsWhitespace (c : Char) : Bool :=
  let n := c.toNat
  n = 0x09 || n = 0x0A || n = 0x0B || n = 0x0C || n = 0x0D || n = 0x20 || n = 0xA0 ||
  n = 0x1680 || (0x2000 ≤ n && n ≤ 0x200A) || n = 0x2028 || n = 0x2029 || n = 0x202F ||
  n = 0x205F || n = 0x3000 || n = 0xFEFF

/-- The regular-expression class `\d`: the ten ASCII digits. -/
def isJsDigit (c : Char) : Bool := 48 ≤ c.toNat && c.toNat ≤ 57

/-- `s.trim()`. -/
def jsTrim (s : JsString) : JsString :=
  ((s.dropWhile isJsWhitespace).reverse.dropWhile isJsWhitespace).reverse

/-- `s.split(sep)` for a one-character separator, and `s.split(/[...]/)` for a
character class: the pieces between separator characters (always at least one
piece, possibly empty). -/
def jsSplit (isSep : Char → Bool) : JsString → List JsString
  | [] => [[]]
  | c :: cs =>
    if isSep c then [] :: jsSplit isSep cs
    else
      match jsSplit isSep cs with
      | [] => [[c]]
      | piece :: pieces => (c :: piece) :: pieces

/-- `parts.join(sep)` on an array of strings. -/
def jsJoin (sep : JsString) (parts : List JsString) : JsString :=
  List.intercalate sep parts

/-- `x || ''` for a value that is a string, `null` or `undefined`. -/
def orEmpty (x : Option JsString) : JsString := x.getD []

/-- `x || null` for a value that is a string, `null` or `undefined`: the empty
string is falsy. -/
def orNull (x : Option JsString) : Option JsString :=
  match x with
  | some s => if s = [] then none else some s
  | none => none

/-- Value of a run of decimal digits, most significant first. -/
def digitsValue (ds : List Char) : Nat :=
  ds.foldl (fun acc c => 10 * acc + (c.toNat - 48)) 0

/-- `parseInt(x, 10)` where `x` is a string or `undefined`: leading white space
is skipped, one optional sign is read, then the longest run of digits; `none`
is `NaN` (no digit, or `undefined`, whose string form starts with `u`).  The
value is the exact integer (a JavaScript number is exact up to 2^53). -/
def jsParseInt (x : Option JsString) : Option Int :=
  match x with
  | none => none
  | some s =>
    let t := s.dropWhile isJsWhitespace
    let (neg, body) :=
      match t with
      | '-' :: r => (true, r)
      | '+' :: r => (false, r)
      | r => (false, r)
    let ds := body.takeWhile isJsDigit
    if ds = [] then none
    else if neg then some (-(digitsValue ds : Int)) else some (digitsValue ds : Int)

/-! ## JavaScript `Date`, as far as `calculateAge` uses it

`new Date(year, month, day)` followed by `getFullYear`, `getMonth`, `getDate`,
all in local time.  The embedding works on day numbers (days since
1970-01-01) of the proleptic Gregorian calendar and ignores the time-zone
offset, which cancels between the constructor and the getters. -/

/-- A calendar date as the `Date` getters report it: `getFullYear()`,
`getMonth()` (0 to 11) and `getDate()`. -/
structure CalendarDate where
  year : Int
  month : Int
  date : Int
  deriving DecidableEq, Repr

/-- Day number of the first day of month `month0` (0 to 11) of `year`. -/
def dayFromYearMonth (year month0 : Int) : Int :=
  let y := if month0 < 2 then year - 1 else year
  let era := y / 400
  let yoe := y - era * 400
  let mp := if month0 < 2 then month0 + 10 else month0 - 2
  let doy := (153 * mp + 2) / 5
  era * 146097 + (yoe * 365 + yoe / 4 - yoe / 100 + doy) - 719468

/-- Calendar date of a day number. -/
def dateFromDay (day : Int) : CalendarDate :=
  let z := day + 719468
  let era := z / 146097
  let doe := z - era * 146097
  let yoe := (doe - doe / 1460 + doe / 36524 - doe / 146096) / 365
  let doy := doe - (365 * yoe + yoe / 4 - yoe / 100)
  let mp := (5 * doy + 2) / 153
  let d := doy - (153 * mp + 2) / 5 + 1
  let month0 := if mp < 10 then mp + 2 else mp - 10
  let y := yoe + era * 400
  { year := if month0 < 2 then y + 1 else y, month := month0, date := d }

/-- `new Date(year, month, day)` for integer arguments, `none` for an Invalid
Date.  A year from 0 to 99 means 1900 + year; month and day overflow into the
neighbouring months and years; the engine (V8) accepts years within one
million and months within ten million of zero, and the resulting day must lie
within 100,000,000 days of the epoch. -/
def jsDate (year month day : Int) : Option CalendarDate :=
  let yr := if 0 ≤ year ∧ year ≤ 99 then 1900 + year else year
  if -1000000 ≤ yr ∧ yr ≤ 1000000 ∧ -10000000 ≤ month ∧ month ≤ 10000000 then
    let ym := yr + month / 12
    let mn := month % 12
    let dayNumber := dayFromYearMonth ym mn + day - 1
    if -100000000 ≤ dayNumber ∧ dayNumber ≤ 100000000 then some (dateFromDay dayNumber)
    else none
  else none

/-! ## sorter.js -/

/-- The `Address` object built by `parseData`. -/
structure Address where
  AddressLine1 : JsString
  AddressLine2 : JsString
  deriving DecidableEq, Repr

/-- The object literal returned by `Sorter.parseData`, `sorter.js` lines 24-36:
exactly these eight properties. -/
structure Person where
  FirstName : Option JsString
  MiddleName : Option JsString
  LastName : Option JsString
  Dob : JsString
  Age : Option Int
  Address : Address
  Phone : Option JsString
  Email : Option JsString
  deriving DecidableEq, Repr

/-- The result `{ phones, emails }` of `splitPhonesAndEmails`. -/
structure PhonesAndEmails where
  phones : List JsString
  emails : List JsString
  deriving DecidableEq, Repr

/-- The test `/^\d{10}$/.test(s)`. -/
def phoneRegexTest (s : JsString) : Bool :=
  s.length = 10 && s.all isJsDigit

/-- The test `/^[^\s@]+@[^\s@]+\.[^\s@]+$/.test(s)`: exactly one `@`, no white
space anywhere, a non-empty part before the `@`, and after it a part that has a
`.` which is neither its first nor its last character. -/
def emailRegexTest (s : JsString) : Bool :=
  match jsSplit (fun c => c = '@') s with
  | [name, domain] =>
    name ≠ [] && name.all (fun c => !isJsWhitespace c) &&
    domain.all (fun c => !isJsWhitespace c) && ((domain.drop 1).dropLast).contains '.'
  | _ => false

/-- The method `Sorter.splitPhonesAndEmails`, `sorter.js` lines 39-66. -/
def splitPhonesAndEmails (phonePart emailPart : JsString) : PhonesAndEmails :=
  let phones :=
    if phonePart ≠ [] then
      ((jsSplit (fun c => c = '|' || c = ';') phonePart).map
        (fun item => item.filter isJsDigit)).filter phoneRegexTest
    else []
  let emails :=
    if emailPart ≠ [] then
      ((jsSplit (fun c => c = '|' || c = ';') emailPart).map jsTrim).filter emailRegexTest
    else []
  { phones := phones, emails := emails }

/-- The method `Sorter.calculateAge`, `sorter.js` lines 68-84, with the value of
`new Date()` (the current local date) as the parameter `today`. -/
def calculateAge (today : CalendarDate) (birthDateStr : JsString) : Option Int :=
  let parts := jsSplit (fun c => c = '/') birthDateStr
  match jsParseInt (parts.get? 0), jsParseInt (parts.get? 1), jsParseInt (parts.get? 2) with
  | some monthNum, some day, some year =>
    match jsDate year (monthNum - 1) day with
    | none => none
    | some birthDate =>
      let age := today.year - birthDate.year
      let m := today.month - birthDate.month
      if m < 0 ∨ (m = 0 ∧ today.date < birthDate.date) then some (age - 1) else some age
  | _, _, _ => none

/-- The method `Sorter.parseData`, `sorter.js` lines 7-37, applied to the raw
line `rawData`. -/
def parseData (today : CalendarDate) (rawData : JsString) : List Person :=
  let parts := jsSplit (fun c => c = ';') (jsTrim rawData)
  if parts.length < 9 then []
  else
    let fullNameParts := jsSplit (fun c => c = ' ') (jsTrim (parts.getD 2 []))
    let firstName := orNull (fullNameParts.get? 0)
    let lastName := orNull (fullNameParts.get? (fullNameParts.length - 1))
    let middleName :=
      if fullNameParts.length > 2 then
        some (jsJoin [' '] ((fullNameParts.take (fullNameParts.length - 1)).drop 1))
      else none
    let phonesAndEmails := splitPhonesAndEmails (parts.getD 7 []) (parts.getD 8 [])
    [{ FirstName := firstName
       MiddleName := middleName
       LastName := lastName
       Dob := jsTrim (parts.getD 1 [])
       Age := calculateAge today (jsTrim (parts.getD 1 []))
       Address :=
         { AddressLine1 := jsTrim (parts.getD 3 [])
           AddressLine2 :=
             jsTrim (parts.getD 4 []) ++ [',', ' '] ++ jsTrim (parts.getD 5 []) ++ [' '] ++
               jsTrim (parts.getD 6 []) }
       Phone := phonesAndEmails.phones.get? 0
       Email := phonesAndEmails.emails.get? 0 }]

/-! ## worker.js: validation and request payload -/

/-- The function `isValidDate`, `worker.js` lines 39-42: the test
`/^(0[1-9]|1[0-2])\/(0[1-9]|[12]\d|3[01])\/(19|20)\d\d$/.test(dateStr)`. -/
def isValidDate (dateStr : JsString) : Bool :=
  match dateStr with
  | [m1, m2, s1, d1, d2, s2, y1, y2, y3, y4] =>
    ((m1 = '0' && '1' ≤ m2 && m2 ≤ '9') || (m1 = '1' && '0' ≤ m2 && m2 ≤ '2')) &&
    s1 = '/' &&
    ((d1 = '0' && '1' ≤ d2 && d2 ≤ '9') || ((d1 = '1' || d1 = '2') && isJsDigit d2) ||
      (d1 = '3' && (d2 = '0' || d2 = '1'))) &&
    s2 = '/' &&
    ((y1 = '1' && y2 = '9') || (y1 = '2' && y2 = '0')) && isJsDigit y3 && isJsDigit y4
  | _ => false

/-- The `address` object of the request payload. -/
structure RequestAddress where
  addressLine1 : Option JsString
  addressLine2 : Option JsString
  deriving DecidableEq, Repr

/-- The request payload returned by `mapPerson`. -/
structure MappedPerson where
  firstName : Option JsString
  middleName : Option JsString
  lastName : Option JsString
  dob : Option JsString
  age : Option Int
  address : RequestAddress
  phone : Option JsString
  email : Option JsString
  deriving DecidableEq, Repr

/-- The function `formatPhoneNumber`, `worker.js` lines 138-151. -/
def formatPhoneNumber (phoneNumber : JsString) : Option JsString :=
  if phoneNumber = [] then none
  else
    let cleaned := phoneNumber.filter isJsDigit
    if cleaned.length = 10 then
      some (cleaned.take 3 ++ ['-'] ++ (cleaned.drop 3).take 3 ++ ['-'] ++ cleaned.drop 6)
    else none

/-- The function `mapPerson`, `worker.js` lines 154-168.  `person.Age || null`
turns the falsy number 0 into `null`; `person.Phone[0]` and `person.Email[0]`
index a string, giving its first character. -/
def mapPerson (person : Person) : MappedPerson :=
  { firstName := orNull person.FirstName
    middleName := orNull person.MiddleName
    lastName := orNull person.LastName
    dob := orNull (some person.Dob)
    age := match person.Age with
      | some a => if a = 0 then none else some a
      | none => none
    address :=
      { addressLine1 := orNull (some person.Address.AddressLine1)
        addressLine2 := orNull (some person.Address.AddressLine2) }
    phone := match person.Phone with
      | some (c :: _) => formatPhoneNumber [c]
      | _ => none
    email := match person.Email with
      | some (c :: _) => some [c]
      | _ => none }

/-- The function `validatePersonData`, `worker.js` lines 53-63.  `person.dob`
is a non-empty string or `null`; `person.age` is an integer or `null`, so
`isNaN(person.age)` is false whenever the age test is reached. -/
def validatePersonData (person : MappedPerson) : List String :=
  let errors : List String := []
  let errors :=
    match person.dob with
    | some dob =>
      if dob ≠ [] ∧ !isValidDate dob then errors ++ ["Dob must be in mm/dd/yyyy format."]
      else errors
    | none => errors
  let errors :=
    match person.age with
    | some age =>
      if age ≤ 0 ∨ age > 120 then errors ++ ["Age must be a valid number between 1 and 120."]
      else errors
    | none => errors
  errors

/-! ## worker.js: output line -/

/-- An element of `responsePerson.addresses`. -/
structure ResponseAddress where
  street : Option JsString
  city : Option JsString
  state : Option JsString
  zip : Option JsString
  deriving DecidableEq, Repr

/-- The `person` object of an API response: each of the three arrays may be
missing; `phones` holds the `number` and `emails` the `email` property of each
element (`none` when that property is missing or `null`). -/
structure ResponsePerson where
  addresses : Option (List ResponseAddress)
  phones : Option (List (Option JsString))
  emails : Option (List (Option JsString))
  deriving DecidableEq, Repr

/-- The lookup `originalPerson.ID`: the object built by `parseData` has no
property `ID`, so the lookup gives `undefined`. -/
def Person.ID (_ : Person) : Option JsString := none

/-- The lookup `originalPerson.Phones`: the object built by `parseData` has the
property `Phone` but no property `Phones`, so the lookup gives `undefined`. -/
def Person.Phones (_ : Person) : Option (List (Option JsString)) := none

/-- The lookup `originalPerson.Emails`: the object built by `parseData` has the
property `Email` but no property `Emails`, so the lookup gives `undefined`. -/
def Person.Emails (_ : Person) : Option (List (Option JsString)) := none

/-- `array.join(sep)` on an array whose elements are strings, `null` or
`undefined`; the latter two are joined as the empty string. -/
def jsJoinValues (sep : JsString) (parts : List (Option JsString)) : JsString :=
  jsJoin sep (parts.map orEmpty)

/-- The object used when the response has no first address, `worker.js` lines
242-247, built from the original `Address`. -/
def fallbackAddress (address : Address) : ResponseAddress :=
  let afterComma := ((jsSplit (fun c => c = ',') address.AddressLine2).get? 1).map jsTrim
  { street := some address.AddressLine1
    city := ((jsSplit (fun c => c = ',') address.AddressLine2).get? 0).map jsTrim
    state := afterComma.bind (fun s => (jsSplit (fun c => c = ' ') s).get? 0)
    zip := afterComma.bind (fun s => (jsSplit (fun c => c = ' ') s).get? 1) }

/-- The nine entries of `parts` in `formatPersonAsLine`, `worker.js` lines
234-276. -/
def formatPersonParts (responsePerson : ResponsePerson) (originalPerson : Person) :
    List JsString :=
  let ID := orEmpty originalPerson.ID
  let DOB := originalPerson.Dob
  let fullName :=
    jsTrim (orEmpty originalPerson.FirstName ++ [' '] ++ orEmpty originalPerson.MiddleName ++
      [' '] ++ orEmpty originalPerson.LastName)
  let addresses := responsePerson.addresses.getD []
  let mostRecentAddress := (addresses.get? 0).getD (fallbackAddress originalPerson.Address)
  let street := orEmpty mostRecentAddress.street
  let city := orEmpty mostRecentAddress.city
  let state := orEmpty mostRecentAddress.state
  let zip := orEmpty mostRecentAddress.zip
  let phonesFromResponse := responsePerson.phones.getD []
  let phonesFromOriginal := originalPerson.Phones.getD []
  let allPhones := phonesFromResponse ++ phonesFromOriginal
  let phones := jsJoinValues ['|'] allPhones
  let emailsFromResponse := responsePerson.emails.getD []
  let emailsFromOriginal := originalPerson.Emails.getD []
  let allEmails := emailsFromResponse ++ emailsFromOriginal
  let emails := jsJoinValues ['|'] allEmails
  [ID, DOB, fullName, street, city, state, zip, phones, emails]

/-- The function `formatPersonAsLine`, `worker.js` lines 234-279. -/
def formatPersonAsLine (responsePerson : ResponsePerson) (originalPerson : Person) : JsString :=
  jsJoin [';'] (formatPersonParts responsePerson originalPerson)

/-! ## worker.js: sending one record (lines 171-213) and one line (120-135) -/

/-- What one `await limit(() => api.post(...))` produces: the promise rejects,
or it resolves with a response whose `data.person` is `person` (`none` when the
body has no `person` object). -/
inductive ApiOutcome where
  | reject
  | resolve (person : Option ResponsePerson)
  deriving DecidableEq, Repr

/-- The body of the `try` block, lines 185-201, after the request has
returned: `some line` when the block runs to its `break`, having appended
`line` to the output file; `none` when it throws and control passes to the
`catch` block.  Besides a rejected request, the block throws at
`apiResponse.data.person.emails.map` when `person` or `person.emails` is
missing; nothing has been written at that point.  Logging, `postMessage` and
the file append are taken not to throw. -/
def tryBody (outcome : ApiOutcome) (person : Person) : Option JsString :=
  match outcome with
  | ApiOutcome.reject => none
  | ApiOutcome.resolve none => none
  | ApiOutcome.resolve (some responsePerson) =>
    match responsePerson.emails with
    | none => none
    | some _ => some (formatPersonAsLine responsePerson person)

/-- An attempt succeeds when the `try` block reaches its `break`. -/
def ApiOutcome.succeeds (outcome : ApiOutcome) (person : Person) : Bool :=
  (tryBody outcome person).isSome

/-- Observable effects of `sendPerson` (and of `processLine`): the number of
`api.post` requests issued, the lines appended to the output file, the
arguments of the `adjustConcurrency` calls in order, and the throttle state. -/
structure SendResult where
  requests : Nat
  outputLines : List JsString
  reports : List Bool
  throttle : Throttle
  deriving DecidableEq, Repr

/-- The loop `while (retries > 0)`, lines 183-212.  `outcomes i` is the outcome
of the request issued when `i` requests have been issued before it. -/
def retryLoop (MAX_CONCURRENT_REQUESTS : Int) (person : Person) (outcomes : Nat → ApiOutcome) :
    Nat → SendResult → SendResult
  | 0, st => st
  | retries + 1, st =>
    match tryBody (outcomes st.requests) person with
    | some line =>
      { requests := st.requests + 1
        outputLines := st.outputLines ++ [line]
        reports := st.reports ++ [false]
        throttle := adjustConcurrency MAX_CONCURRENT_REQUESTS st.throttle false }
    | none =>
      retryLoop MAX_CONCURRENT_REQUESTS person outcomes retries
        { requests := st.requests + 1
          outputLines := st.outputLines
          reports := st.reports ++ [true]
          throttle := adjustConcurrency MAX_CONCURRENT_REQUESTS st.throttle true }

/-- The function `sendPerson`, `worker.js` lines 171-213, started with the
effects `st` accumulated so far. -/
def sendPerson (MAX_CONCURRENT_REQUESTS : Int) (st : SendResult) (outcomes : Nat → ApiOutcome)
    (person : Person) : SendResult :=
  let mappedPerson := mapPerson person
  let validationErrors := validatePersonData mappedPerson
  if validationErrors.length > 0 then st
  else retryLoop MAX_CONCURRENT_REQUESTS person outcomes 3 st

/-- The effects before anything has been sent. -/
def SendResult.start (throttle : Throttle) : SendResult :=
  { requests := 0, outputLines := [], reports := [], throttle := throttle }

/-- Effects of `processLine`: those of its `sendPerson` calls, and how many
such calls it made. -/
structure ProcessResult where
  sendCalls : Nat
  effects : SendResult
  deriving DecidableEq, Repr

/-- The function `processLine`, `worker.js` lines 120-135: `new Sorter(line)`
runs `parseData`, then each parsed person is sent in turn. -/
def processLine (MAX_CONCURRENT_REQUESTS : Int) (today : CalendarDate) (throttle : Throttle)
    (outcomes : Nat → ApiOutcome) (line : JsString) : ProcessResult :=
  let parsedData := parseData today line
  let start : ProcessResult := { sendCalls := 0, effects := SendResult.start throttle }
  if parsedData.length = 0 then start
  else
    parsedData.foldl
      (fun acc person =>
        { sendCalls := acc.sendCalls + 1
          effects := sendPerson MAX_CONCURRENT_REQUESTS acc.effects outcomes person })
      start

/-! ## index.js: worker count (lines 52-61) and dispatch (lines 64-134) -/

/-- A worker as the dispatcher sees it: `worker.id` and `worker.taskCount`. -/
structure Worker where
  id : Nat
  taskCount : Int
  deriving DecidableEq, Repr

/-- The module-level array `workers` of `index.js`, line 11.  It is created
empty and no statement of the program adds to it: `processFile` pushes the
workers it creates into its own local array of the same name (line 106). -/
def moduleWorkers : List Worker := []

/-- The workers `processFile` creates, lines 111-121: ids `0 .. numWorkers-1`,
each with `taskCount = 0` (line 95). -/
def createWorkers (numWorkers : Nat) : List Worker :=
  (List.range numWorkers).map (fun i => { id := i, taskCount := 0 })

/-- The callback of the `reduce` in `processFile`, line 131. -/
def leastLoaded (prev curr : Worker) : Worker :=
  if prev.taskCount < curr.taskCount then prev else curr

/-- The selection `workers.reduce(...)` of line 131, without initial value: the
first element starts as accumulator; on an empty array `reduce` throws
(`none`). -/
def selectWorker (workers : List Worker) : Option Worker :=
  match workers with
  | [] => none
  | first :: rest => some (rest.foldl leastLoaded first)

/-- One iteration of the dispatch loop, lines 131-133: select a worker and
increment its `taskCount`.  The selected worker is an element of the array and
ids are those given by `createWorkers`, so it is identified by its id. -/
def assignLine (workers : List Worker) : Option (List Worker) :=
  match selectWorker workers with
  | none => none
  | some worker =>
    some (workers.map (fun w =>
      if w.id = worker.id then { w with taskCount := w.taskCount + 1 } else w))

/-- The `taskCompleted` branch of the message handler, lines 80-87: the worker
is looked up in the module-level array and, if found, its count decremented. -/
def onTaskCompleted (workers : List Worker) (workerId : Nat) : List Worker :=
  match moduleWorkers.find? (fun w => w.id = workerId) with
  | some worker =>
    workers.map (fun w =>
      if w.id = worker.id then { w with taskCount := w.taskCount - 1 } else w)
  | none => workers

/-- What the dispatcher reacts to: the next input line, or a `taskCompleted`
message from a worker. -/
inductive DispatchEvent where
  | line
  | taskCompleted (workerId : Nat)
  deriving DecidableEq, Repr

/-- The dispatcher's table after a sequence of events, `none` if an assignment
threw. -/
def dispatch (workers : List Worker) : List DispatchEvent → Option (List Worker)
  | [] => some workers
  | DispatchEvent.line :: rest =>
    match assignLine workers with
    | none => none
    | some workers1 => dispatch workers1 rest
  | DispatchEvent.taskCompleted workerId :: rest =>
    dispatch (onTaskCompleted workers workerId) rest

/-! ## Invariant of the dispatch table -/

/-- The invariant of the dispatch table: it is non-empty, worker ids are
pairwise distinct, and no worker has more than one task more than another. -/
def DispatchInv (workers : List Worker) : Prop :=
  workers ≠ [] ∧ (workers.map Worker.id).Nodup ∧
    ∀ a ∈ workers, ∀ b ∈ workers, a.taskCount ≤ b.taskCount + 1

/-! ## Definitions written after the spec's words -/

/-- The throttle policy as the spec states it, on the pair (budget, counter):
on failure the counter is incremented, and if the incremented counter exceeds
5 and the budget exceeds 1 the budget drops by 1 and the counter becomes 0;
on success, if the counter is exactly 0 and the budget is below the ceiling,
the budget rises by 1; otherwise nothing else changes. -/
def specThrottleStep (ceiling : Int) (budget counter : Int) : Bool → Int × Int
  | true =>
    if counter + 1 > 5 ∧ budget > 1 then (budget - 1, 0) else (budget, counter + 1)
  | false =>
    if counter = 0 ∧ budget < ceiling then (budget + 1, counter) else (budget, counter)

/-- The phone the spec keeps for a phone field: split the field on `|` or `;`
into candidates, strip the non-digit characters from each, and take the first
stripped candidate that has exactly 10 digits (`none` when there is none). -/
def firstTenDigitCandidate (phoneField : JsString) : Option JsString :=
  ((jsSplit (fun c => c = '|' || c = ';') phoneField).map
    (fun candidate => candidate.filter isJsDigit)).find? (fun s => s.length = 10)

/-- The integer number of full years from the calendar date `birth` to the
calendar date `today`: the difference of the years, less one when the month
and day of `today` come strictly before the month and day of `birth`. -/
def fullYearsBetween (birth today : CalendarDate) : Int :=
  if today.month < birth.month ∨ (today.month = birth.month ∧ today.date < birth.date) then
    today.year - birth.year - 1
  else today.year - birth.year

/-- The run of the dispatcher as in `dispatch`, which also records, for each
input line, the id of the worker the line was posted to (line 132). -/
def dispatchTrace (workers : List Worker) :
    List DispatchEvent → Option (List Worker × List Nat)
  | [] => some (workers, [])
  | DispatchEvent.line :: rest =>
    match selectWorker workers, assignLine workers with
    | some worker, some workers1 =>
      match dispatchTrace workers1 rest with
      | some (workers2, assigned) => some (workers2, worker.id :: assigned)
      | none => none
    | _, _ => none
  | DispatchEvent.taskCompleted workerId :: rest =>
    dispatchTrace (onTaskCompleted workers workerId) rest

/-- The table `workers` after each worker has received the lines recorded for
its id in `assigned`. -/
def addAssigned (assigned : List Nat) (workers : List Worker) : List Worker :=
  workers.map (fun w => { w with taskCount := w.taskCount + (assigned.count w.id : Int) })

/-- The tokens of a name field in the spec's sense: its maximal runs of
non-whitespace characters. -/
def whitespaceTokens (s : JsString) : List JsString :=
  (jsSplit isJsWhitespace s).filter (fun piece => piece ≠ [])

/-- The interior of a list of tokens: all but the first and the last. -/
def interiorTokens (tokens : List JsString) : List JsString :=
  (tokens.take (tokens.length - 1)).drop 1

/-- The string contains no `;`. -/
def NoSemicolon (s : JsString) : Prop := ';' ∉ s

/-- No string value of the Person contains a `;`. -/
def Person.NoSemicolon (p : Person) : Prop :=
  Endato.NoSemicolon (orEmpty p.FirstName) ∧ Endato.NoSemicolon (orEmpty p.MiddleName) ∧
  Endato.NoSemicolon (orEmpty p.LastName) ∧ Endato.NoSemicolon p.Dob ∧
  Endato.NoSemicolon p.Address.AddressLine1 ∧ Endato.NoSemicolon p.Address.AddressLine2 ∧
  Endato.NoSemicolon (orEmpty p.Phone) ∧ Endato.NoSemicolon (orEmpty p.Email)

/-- No string value of the response person contains a `;`. -/
def ResponsePerson.NoSemicolon (r : ResponsePerson) : Prop :=
  (∀ a ∈ r.addresses.getD [],
    Endato.NoSemicolon (orEmpty a.street) ∧ Endato.NoSemicolon (orEmpty a.city) ∧
    Endato.NoSemicolon (orEmpty a.state) ∧ Endato.NoSemicolon (orEmpty a.zip)) ∧
  (∀ phone ∈ r.phones.getD [], Endato.NoSemicolon (orEmpty phone)) ∧
  (∀ email ∈ r.emails.getD [], Endato.NoSemicolon (orEmpty email))

/-- The current date used in the concrete examples: 4 November 2026
(`getMonth()` is 10). -/
def exampleToday : CalendarDate := { year := 2026, month := 10, date := 4 }

/-- A well-formed nine-field input line whose date of birth lies less than one
year before `exampleToday`. -/
def infantLine : JsString :=
  "ID7;05/01/2026;Ann Lee;1 Main St;Springfield;IL;62704;217-555-0101;ann@lee.org".toList

/-- A well-formed nine-field input line whose date of birth has month 13. -/
def badMonthLine : JsString :=
  "ID8;13/01/2000;Ann Lee;1 Main St;Springfield;IL;62704;217-555-0101;ann@lee.org".toList

/-- An input line with only eight fields. -/
def shortLine : JsString :=
  "ID9;01/15/1980;Ann Lee;1 Main St;Springfield;IL;62704;217-555-0101".toList

/-- The Person parsed from `badMonthLine`. -/
def badMonthPerson : Person :=
  { FirstName := some "Ann".toList
    MiddleName := none
    LastName := some "Lee".toList
    Dob := "13/01/2000".toList
    Age := some 25
    Address :=
      { AddressLine1 := "1 Main St".toList, AddressLine2 := "Springfield, IL 62704".toList }
    Phone := some "2175550101".toList
    Email := some "ann@lee.org".toList }

/-- The example line of the spec. -/
def johnLine : JsString :=
  "ID1;01/15/1980;John Middle Doe;123 Main St;Springfield;IL;62704;217-555-0101|;john@doe.com|;".toList

/-- The Person parsed from `johnLine` on `exampleToday`. -/
def johnPerson : Person :=
  { FirstName := some "John".toList
    MiddleName := some "Middle".toList
    LastName := some "Doe".toList
    Dob := "01/15/1980".toList
    Age := some 46
    Address :=
      { AddressLine1 := "123 Main St".toList, AddressLine2 := "Springfield, IL 62704".toList }
    Phone := some "2175550101".toList
    Email := some "john@doe.com".toList }

/-- An API response person with one phone number, one email address and no
address. -/
def sampleResponse : ResponsePerson :=
  { addresses := none
    phones := some [some "3125550199".toList]
    emails := some [some "jd@example.com".toList] }

/-- The endpoint whose first request is rejected and whose later requests
resolve with `sampleResponse`. -/
def rejectOnce : Nat → ApiOutcome :=
  fun i => if i = 0 then ApiOutcome.reject else ApiOutcome.resolve (some sampleResponse)

/-- The endpoint that rejects every request. -/
def alwaysReject : Nat → ApiOutcome := fun _ => ApiOutcome.reject

/-- A line whose phone field holds a short candidate, then two candidates with
10 digits each. -/
def twoPhonesLine : JsString :=
  "ID2;01/15/1980;Ann Lee;1 Main St;Springfield;IL;62704;555-0101|(217) 555-0102|3125550199;ann@lee.org".toList

/-- A nine-field line whose name field separates its two words by two spaces. -/
def doubleSpaceLine : JsString :=
  "ID3;01/15/1980;John  Doe;1 Main St;Springfield;IL;62704;217-555-0101;john@doe.com".toList

/-- A nine-field line whose name field separates its two words by a tab. -/
def tabLine : JsString :=
  "ID4;01/15/1980;John\tDoe;1 Main St;Springfield;IL;62704;217-555-0101;john@doe.com".toList

/-- The example line of the spec with another record identifier in field 1. -/
def johnLineOtherId : JsString :=
  "XY-777;01/15/1980;John Middle Doe;123 Main St;Springfield;IL;62704;217-555-0101|;john@doe.com|;".toList

/-! ## Theorems -/

/-- One call keeps the budget between 1 and the ceiling. -/
theorem adjustConcurrency_bounds (M : Int) (s : Throttle) (e : Bool)
    (h : 1 ≤ s.maxConcurrentRequests ∧ s.maxConcurrentRequests ≤ M) :
    1 ≤ (adjustConcurrency M s e).maxConcurrentRequests ∧
      (adjustConcurrency M s e).maxConcurrentRequests ≤ M := by
  unfold adjustConcurrency
  cases e <;> simp only [Bool.false_eq_true, if_true, if_false] <;> split_ifs <;>
    constructor <;> dsimp only <;> omega

/-- Any sequence of calls keeps the budget between 1 and the ceiling. -/
theorem adjustMany_bounds (M : Int) (calls : List Bool) :
    ∀ s : Throttle, 1 ≤ s.maxConcurrentRequests ∧ s.maxConcurrentRequests ≤ M →
      1 ≤ (adjustMany M s calls).maxConcurrentRequests ∧
        (adjustMany M s calls).maxConcurrentRequests ≤ M := by
  induction calls with
  | nil => intro s h; simpa [adjustMany] using h
  | cons e rest ih =>
    intro s h
    have := ih (adjustConcurrency M s e) (adjustConcurrency_bounds M s e h)
    simpa [adjustMany] using this

/-- C1: starting from the initial state (budget `MAX_CONCURRENT_REQUESTS >= 1`,
error counter 0), after every finite sequence of `adjustConcurrency(true)` /
`adjustConcurrency(false)` calls the budget is at least 1 and at most
`MAX_CONCURRENT_REQUESTS`. -/
theorem throttle_budget_bounds (MAX_CONCURRENT_REQUESTS : Int)
    (hmax : 1 ≤ MAX_CONCURRENT_REQUESTS) (calls : List Bool) :
    1 ≤ (adjustMany MAX_CONCURRENT_REQUESTS (Throttle.init MAX_CONCURRENT_REQUESTS) calls).maxConcurrentRequests ∧
      (adjustMany MAX_CONCURRENT_REQUESTS (Throttle.init MAX_CONCURRENT_REQUESTS) calls).maxConcurrentRequests
        ≤ MAX_CONCURRENT_REQUESTS :=
  adjustMany_bounds MAX_CONCURRENT_REQUESTS calls (Throttle.init MAX_CONCURRENT_REQUESTS)
    ⟨hmax, le_refl _⟩

/-- Witness of C1: ceiling 50 (the value `index.js` passes), seven failures
followed by a success. -/
theorem throttle_budget_bounds_witness :
    (1 : Int) ≤ 50 ∧
    1 ≤ (adjustMany 50 (Throttle.init 50)
          [true, true, true, true, true, true, true, false]).maxConcurrentRequests ∧
      (adjustMany 50 (Throttle.init 50)
          [true, true, true, true, true, true, true, false]).maxConcurrentRequests ≤ 50 :=
  ⟨by decide, throttle_budget_bounds 50 (by decide) _⟩

/-- C2, as stated, fails: from budget 2 and counter 0, five consecutive
failures leave the budget at 2 and the counter at 5. -/
theorem five_failures_counterexample :
    (Throttle.mk 2 0).requestErrors = 0 ∧ (Throttle.mk 2 0).maxConcurrentRequests > 1 ∧
    adjustMany 50 (Throttle.mk 2 0) [true, true, true, true, true] = Throttle.mk 2 5 ∧
    ¬ ((adjustMany 50 (Throttle.mk 2 0) [true, true, true, true, true]).maxConcurrentRequests = 2 - 1 ∧
       (adjustMany 50 (Throttle.mk 2 0) [true, true, true, true, true]).requestErrors = 0) := by
  decide

/-- C2 (amended): from every state with error counter 0 and budget > 1, five
consecutive failures leave the budget unchanged with the counter at 5, and
exactly six consecutive failures leave the budget decreased by exactly 1 and
the counter equal to 0. -/
theorem six_failures_decrement (MAX_CONCURRENT_REQUESTS : Int) (s : Throttle)
    (hzero : s.requestErrors = 0) (hbudget : 1 < s.maxConcurrentRequests) :
    adjustMany MAX_CONCURRENT_REQUESTS s [true, true, true, true, true]
        = { maxConcurrentRequests := s.maxConcurrentRequests, requestErrors := 5 } ∧
    adjustMany MAX_CONCURRENT_REQUESTS s [true, true, true, true, true, true]
        = { maxConcurrentRequests := s.maxConcurrentRequests - 1, requestErrors := 0 } := by
  obtain ⟨b, c⟩ := s
  simp only at hzero hbudget
  subst hzero
  have hb : b > 1 := hbudget
  simp [adjustMany, adjustConcurrency, hb]

/-- Witness of the amended C2 at budget 50, counter 0. -/
theorem six_failures_decrement_witness :
    (Throttle.mk 50 0).requestErrors = 0 ∧ 1 < (Throttle.mk 50 0).maxConcurrentRequests ∧
    adjustMany 50 (Throttle.mk 50 0) [true, true, true, true, true] = Throttle.mk 50 5 ∧
    adjustMany 50 (Throttle.mk 50 0) [true, true, true, true, true, true] = Throttle.mk 49 0 :=
  ⟨by decide, by decide, six_failures_decrement 50 (Throttle.mk 50 0) (by decide) (by decide)⟩

/-! ### Validation -/

/-- Every age other than 0 that lies outside 1..120 is rejected by validation. -/
theorem nonzero_age_out_of_range_rejected (person : Person) (age : Int)
    (hage : person.Age = some age) (hnz : age ≠ 0) (hout : age < 1 ∨ 120 < age) :
    validatePersonData (mapPerson person) ≠ [] := by
  have hm : (mapPerson person).age = some age := by simp [mapPerson, hage, hnz]
  have hcond : age ≤ 0 ∨ age > 120 := by omega
  unfold validatePersonData
  simp only [hm, hcond, if_true]
  cases (mapPerson person).dob with
  | none => simp
  | some dob => dsimp only; split_ifs <;> simp

/-- C3: at the line `infantLine`, read on 4 November 2026, the parser computes
Age = 0, yet validation returns no error and `sendPerson` goes on to issue
requests (three, against an endpoint that always rejects): the record with
Age 0 is not rejected. -/
theorem age_zero_not_rejected :
    (parseData exampleToday infantLine).map (fun p => p.Age) = [some 0] ∧
    (parseData exampleToday infantLine).map (fun p => (mapPerson p).age) = [none] ∧
    (parseData exampleToday infantLine).map (fun p => validatePersonData (mapPerson p)) = [[]] ∧
    (processLine 50 exampleToday (Throttle.init 50) alwaysReject infantLine).sendCalls = 1 ∧
    (processLine 50 exampleToday (Throttle.init 50) alwaysReject infantLine).effects.requests = 3 := by
  decide

/-- C4: for every Person whose non-empty Dob fails the mm/dd/yyyy test of
`isValidDate`, `validatePersonData (mapPerson person)` is non-empty and
`sendPerson` returns at once: no request is issued, nothing is written and the
throttle is untouched. -/
theorem invalid_dob_rejected (MAX_CONCURRENT_REQUESTS : Int) (st : SendResult)
    (outcomes : Nat → ApiOutcome) (person : Person)
    (hne : person.Dob ≠ []) (hbad : isValidDate person.Dob = false) :
    validatePersonData (mapPerson person) ≠ [] ∧
    sendPerson MAX_CONCURRENT_REQUESTS st outcomes person = st := by
  have hm : (mapPerson person).dob = some person.Dob := by simp [mapPerson, orNull, hne]
  have hv : validatePersonData (mapPerson person) ≠ [] := by
    unfold validatePersonData
    simp only [hm, hne, hbad, ne_eq, not_false_eq_true, Bool.not_false, and_self, if_true]
    cases (mapPerson person).age with
    | none => simp
    | some age => dsimp only; split_ifs <;> simp
  refine ⟨hv, ?_⟩
  unfold sendPerson
  have hlen : (validatePersonData (mapPerson person)).length > 0 :=
    List.length_pos.mpr hv
  simp [hlen]

/-! ### Parser field count and `processLine` -/

/-- When `parseData` returns the empty list, `processLine` makes no
`sendPerson` call and has no effect. -/
theorem processLine_of_parse_empty (M : Int) (today : CalendarDate) (throttle : Throttle)
    (outcomes : Nat → ApiOutcome) (line : JsString) (h : parseData today line = []) :
    processLine M today throttle outcomes line =
      { sendCalls := 0, effects := SendResult.start throttle } := by
  simp [processLine, h]

/-- C5: for every input line, `parseData` returns the empty list if the trimmed
line splits on `;` into fewer than 9 fields and a list of exactly one Person
otherwise; and whenever the list is empty `processLine` calls `sendPerson`
zero times, issuing no request and writing no line. -/
theorem parseData_field_count (MAX_CONCURRENT_REQUESTS : Int) (today : CalendarDate)
    (throttle : Throttle) (outcomes : Nat → ApiOutcome) (line : JsString) :
    ((jsSplit (fun c => c = ';') (jsTrim line)).length < 9 → parseData today line = []) ∧
    (¬ (jsSplit (fun c => c = ';') (jsTrim line)).length < 9 →
      ∃ person, parseData today line = [person]) ∧
    (parseData today line = [] →
      (processLine MAX_CONCURRENT_REQUESTS today throttle outcomes line).sendCalls = 0 ∧
      (processLine MAX_CONCURRENT_REQUESTS today throttle outcomes line).effects.requests = 0 ∧
      (processLine MAX_CONCURRENT_REQUESTS today throttle outcomes line).effects.outputLines = []) := by
  refine ⟨?_, ?_, ?_⟩
  · intro h
    simp [parseData, h]
  · intro h
    unfold parseData
    simp only [h, if_false]
    exact ⟨_, rfl⟩
  · intro h
    rw [processLine_of_parse_empty MAX_CONCURRENT_REQUESTS today throttle outcomes line h]
    simp [SendResult.start]

/-- Witness of C5: an eight-field line gives no Person and no `sendPerson`
call; the nine-field line `infantLine` gives exactly one Person. -/
theorem parseData_field_count_witness :
    (jsSplit (fun c => c = ';') (jsTrim shortLine)).length < 9 ∧
    parseData exampleToday shortLine = [] ∧
    (processLine 50 exampleToday (Throttle.init 50) alwaysReject shortLine).sendCalls = 0 ∧
    (∃ person, parseData exampleToday infantLine = [person]) :=
  ⟨by decide,
   (parseData_field_count 50 exampleToday (Throttle.init 50) alwaysReject shortLine).1 (by decide),
   ((parseData_field_count 50 exampleToday (Throttle.init 50) alwaysReject shortLine).2.2
      ((parseData_field_count 50 exampleToday (Throttle.init 50) alwaysReject shortLine).1
        (by decide))).1,
   (parseData_field_count 50 exampleToday (Throttle.init 50) alwaysReject infantLine).2.1
      (by decide)⟩

/-- Witness of C4: the Person parsed from the line with date of birth
"13/01/2000" is rejected at validation. -/
theorem invalid_dob_rejected_witness :
    parseData exampleToday badMonthLine = [badMonthPerson] ∧
    badMonthPerson.Dob ≠ [] ∧ isValidDate badMonthPerson.Dob = false ∧
    validatePersonData (mapPerson badMonthPerson) ≠ [] ∧
    sendPerson 50 (SendResult.start (Throttle.init 50)) alwaysReject badMonthPerson
      = SendResult.start (Throttle.init 50) :=
  ⟨by decide, by decide, by decide,
   invalid_dob_rejected 50 (SendResult.start (Throttle.init 50)) alwaysReject badMonthPerson
     (by decide) (by decide)⟩

/-! ### Bounded retry -/

/-- C6: for every record that passes validation and every sequence of
endpoint outcomes, `sendPerson` issues at most 3 requests; if the request
number `k + 1` (with `k < 3`) is the first to succeed it issues exactly `k + 1`
requests, writes exactly one output line (the formatted response of that
request) and reports `k` failures followed by one success to the throttle; if
the first 3 requests all fail it issues exactly 3 requests, writes no line,
and reports failure to the throttle exactly 3 times.  `sendPerson` is a total
function: the loop ends without an exception in every case. -/
theorem sendPerson_bounded_retry (MAX_CONCURRENT_REQUESTS : Int) (throttle : Throttle)
    (outcomes : Nat → ApiOutcome) (person : Person)
    (hvalid : validatePersonData (mapPerson person) = []) :
    (sendPerson MAX_CONCURRENT_REQUESTS (SendResult.start throttle) outcomes person).requests ≤ 3 ∧
    (∀ k, k < 3 → (∀ j, j < k → (outcomes j).succeeds person = false) →
      (outcomes k).succeeds person = true →
      (sendPerson MAX_CONCURRENT_REQUESTS (SendResult.start throttle) outcomes person).requests
          = k + 1 ∧
      (∃ line, tryBody (outcomes k) person = some line ∧
        (sendPerson MAX_CONCURRENT_REQUESTS (SendResult.start throttle) outcomes person).outputLines
          = [line]) ∧
      (sendPerson MAX_CONCURRENT_REQUESTS (SendResult.start throttle) outcomes person).reports
          = List.replicate k true ++ [false]) ∧
    ((∀ j, j < 3 → (outcomes j).succeeds person = false) →
      (sendPerson MAX_CONCURRENT_REQUESTS (SendResult.start throttle) outcomes person).requests = 3 ∧
      (sendPerson MAX_CONCURRENT_REQUESTS (SendResult.start throttle) outcomes person).outputLines
          = [] ∧
      (sendPerson MAX_CONCURRENT_REQUESTS (SendResult.start throttle) outcomes person).reports
          = [true, true, true] ∧
      (sendPerson MAX_CONCURRENT_REQUESTS (SendResult.start throttle) outcomes person).throttle
          = adjustMany MAX_CONCURRENT_REQUESTS throttle [true, true, true]) := by
  have hsend : sendPerson MAX_CONCURRENT_REQUESTS (SendResult.start throttle) outcomes person
      = retryLoop MAX_CONCURRENT_REQUESTS person outcomes 3 (SendResult.start throttle) := by
    simp [sendPerson, hvalid]
  rw [hsend]
  simp only [ApiOutcome.succeeds]
  cases h0 : tryBody (outcomes 0) person with
  | some l0 =>
    refine ⟨by simp [retryLoop, SendResult.start, h0], ?_, ?_⟩
    · intro k hk hfail hsucc
      have hk0 : k = 0 := by
        by_contra hne
        have := hfail 0 (Nat.pos_of_ne_zero hne)
        simp [h0] at this
      subst hk0
      simp [retryLoop, SendResult.start, h0]
    · intro hall
      have := hall 0 (by decide)
      simp [h0] at this
  | none =>
    cases h1 : tryBody (outcomes 1) person with
    | some l1 =>
      refine ⟨by simp [retryLoop, SendResult.start, h0, h1], ?_, ?_⟩
      · intro k hk hfail hsucc
        have hk1 : k = 1 := by
          rcases Nat.lt_trichotomy k 1 with h | h | h
          · have hk0 : k = 0 := by omega
            subst hk0
            simp [h0] at hsucc
          · exact h
          · have := hfail 1 h
            simp [h1] at this
        subst hk1
        simp [retryLoop, SendResult.start, h0, h1]
      · intro hall
        have := hall 1 (by decide)
        simp [h1] at this
    | none =>
      cases h2 : tryBody (outcomes 2) person with
      | some l2 =>
        refine ⟨by simp [retryLoop, SendResult.start, h0, h1, h2], ?_, ?_⟩
        · intro k hk hfail hsucc
          have hk2 : k = 2 := by
            have hcases : k = 0 ∨ k = 1 ∨ k = 2 := by omega
            rcases hcases with h | h | h
            · subst h
              simp [h0] at hsucc
            · subst h
              simp [h1] at hsucc
            · exact h
          subst hk2
          simp [retryLoop, SendResult.start, h0, h1, h2, List.replicate]
        · intro hall
          have := hall 2 (by decide)
          simp [h2] at this
      | none =>
        refine ⟨by simp [retryLoop, SendResult.start, h0, h1, h2], ?_, ?_⟩
        · intro k hk hfail hsucc
          have hcases : k = 0 ∨ k = 1 ∨ k = 2 := by omega
          rcases hcases with h | h | h <;> subst h
          · simp [h0] at hsucc
          · simp [h1] at hsucc
          · simp [h2] at hsucc
        · intro _
          simp [retryLoop, SendResult.start, h0, h1, h2, adjustMany]

/-- Witness of C6: the Person of the spec's example line passes validation;
against an endpoint that always rejects, three requests, no line and three
failure reports; against an endpoint that rejects once, two requests and one
line. -/
theorem sendPerson_bounded_retry_witness :
    parseData exampleToday johnLine = [johnPerson] ∧
    validatePersonData (mapPerson johnPerson) = [] ∧
    ((sendPerson 50 (SendResult.start (Throttle.init 50)) alwaysReject johnPerson).requests = 3 ∧
      (sendPerson 50 (SendResult.start (Throttle.init 50)) alwaysReject johnPerson).outputLines
          = [] ∧
      (sendPerson 50 (SendResult.start (Throttle.init 50)) alwaysReject johnPerson).reports
          = [true, true, true] ∧
      (sendPerson 50 (SendResult.start (Throttle.init 50)) alwaysReject johnPerson).throttle
          = adjustMany 50 (Throttle.init 50) [true, true, true]) ∧
    (sendPerson 50 (SendResult.start (Throttle.init 50)) rejectOnce johnPerson).requests = 1 + 1 :=
  ⟨by decide, by decide,
   (sendPerson_bounded_retry 50 (Throttle.init 50) alwaysReject johnPerson (by decide)).2.2
     (fun _ _ => rfl),
   ((sendPerson_bounded_retry 50 (Throttle.init 50) rejectOnce johnPerson (by decide)).2.1 1
     (by decide) (fun j hj => by
        have hj0 : j = 0 := by omega
        subst hj0
        rfl) rfl).1⟩

/-! ### Dispatcher: selection of the least-loaded worker -/

/-- The result of folding `leastLoaded` over `rest` from `acc`: it is no more
loaded than `acc` or any element of `rest`, and it is either `acc` with all of
`rest` strictly more loaded, or an element of `rest` after which every element
is strictly more loaded. -/
theorem foldl_leastLoaded (rest : List Worker) :
    ∀ acc : Worker,
      (rest.foldl leastLoaded acc).taskCount ≤ acc.taskCount ∧
      (∀ v ∈ rest, (rest.foldl leastLoaded acc).taskCount ≤ v.taskCount) ∧
      ((rest.foldl leastLoaded acc = acc ∧ ∀ v ∈ rest, acc.taskCount < v.taskCount) ∨
        ∃ pre post, rest = pre ++ rest.foldl leastLoaded acc :: post ∧
          ∀ v ∈ post, (rest.foldl leastLoaded acc).taskCount < v.taskCount) := by
  induction rest with
  | nil => intro acc; simp
  | cons x xs ih =>
    intro acc
    simp only [List.foldl_cons]
    obtain ⟨h1, h2, h3⟩ := ih (leastLoaded acc x)
    by_cases hlt : acc.taskCount < x.taskCount
    · have hll : leastLoaded acc x = acc := by simp [leastLoaded, hlt]
      rw [hll] at h1 h2 h3 ⊢
      refine ⟨h1, ?_, ?_⟩
      · intro v hv
        rcases List.mem_cons.mp hv with rfl | hv
        · omega
        · exact h2 v hv
      · rcases h3 with ⟨heq, hall⟩ | ⟨pre, post, hdec, hall⟩
        · left
          refine ⟨heq, ?_⟩
          intro v hv
          rcases List.mem_cons.mp hv with rfl | hv
          · exact hlt
          · exact hall v hv
        · right
          refine ⟨x :: pre, post, ?_, hall⟩
          rw [List.cons_append, ← hdec]
    · have hll : leastLoaded acc x = x := by simp [leastLoaded, hlt]
      rw [hll] at h1 h2 h3 ⊢
      refine ⟨by omega, ?_, ?_⟩
      · intro v hv
        rcases List.mem_cons.mp hv with rfl | hv
        · exact h1
        · exact h2 v hv
      · right
        rcases h3 with ⟨heq, hall⟩ | ⟨pre, post, hdec, hall⟩
        · refine ⟨[], xs, ?_, ?_⟩
          · rw [heq]; rfl
          · rw [heq]; exact hall
        · refine ⟨x :: pre, post, ?_, hall⟩
          rw [List.cons_append, ← hdec]

/-- The selected worker is an element of the list and no element has a smaller
`taskCount`. -/
theorem selectWorker_minimal (workers : List Worker) (w : Worker)
    (h : selectWorker workers = some w) :
    w ∈ workers ∧ ∀ v ∈ workers, w.taskCount ≤ v.taskCount := by
  cases workers with
  | nil => simp [selectWorker] at h
  | cons first rest =>
    simp only [selectWorker, Option.some.injEq] at h
    obtain ⟨h1, h2, h3⟩ := foldl_leastLoaded rest first
    rw [h] at h1 h2 h3
    refine ⟨?_, ?_⟩
    · rcases h3 with ⟨heq, _⟩ | ⟨pre, post, hdec, _⟩
      · rw [heq]; exact List.mem_cons_self _ _
      · rw [hdec]; simp
    · intro v hv
      rcases List.mem_cons.mp hv with rfl | hv
      · exact h1
      · exact h2 v hv

/-- C7, as stated, fails: of two workers that both have 0 pending tasks the
selection returns the second one, so the selected worker is not preceded only
by strictly more loaded workers. -/
theorem selectWorker_tie_counterexample :
    selectWorker [Worker.mk 0 0, Worker.mk 1 0] = some (Worker.mk 1 0) ∧
    ¬ ∃ w pre post, selectWorker [Worker.mk 0 0, Worker.mk 1 0] = some w ∧
        [Worker.mk 0 0, Worker.mk 1 0] = pre ++ w :: post ∧
        (∀ v ∈ pre, w.taskCount < v.taskCount) ∧ (∀ v ∈ post, w.taskCount ≤ v.taskCount) := by
  refine ⟨by decide, ?_⟩
  rintro ⟨w, pre, post, hsel, hdec, hpre, _⟩
  have hw : w = Worker.mk 1 0 := by
    have h : selectWorker [Worker.mk 0 0, Worker.mk 1 0] = some (Worker.mk 1 0) := by decide
    rw [h] at hsel
    exact (Option.some.inj hsel).symm
  subst hw
  cases pre with
  | nil =>
    simp at hdec
  | cons a pre1 =>
    have ha : a = Worker.mk 0 0 := by
      simp only [List.cons_append, List.cons.injEq] at hdec
      exact hdec.1.symm
    have := hpre a (List.mem_cons_self _ _)
    rw [ha] at this
    simp at this

/-- C7 (amended): for every non-empty list of workers the selection returns a
worker of the list whose `taskCount` is minimal, and when several workers share
the minimal `taskCount` it returns the last of them in list order: every worker
before it is at least as loaded, every worker after it strictly more loaded. -/
theorem selectWorker_last_minimal (workers : List Worker) (hne : workers ≠ []) :
    ∃ w pre post, selectWorker workers = some w ∧ workers = pre ++ w :: post ∧
      (∀ v ∈ workers, w.taskCount ≤ v.taskCount) ∧
      (∀ v ∈ post, w.taskCount < v.taskCount) := by
  cases workers with
  | nil => exact absurd rfl hne
  | cons first rest =>
    obtain ⟨h1, h2, h3⟩ := foldl_leastLoaded rest first
    have hmin : ∀ v ∈ first :: rest, (rest.foldl leastLoaded first).taskCount ≤ v.taskCount := by
      intro v hv
      rcases List.mem_cons.mp hv with rfl | hv
      · exact h1
      · exact h2 v hv
    rcases h3 with ⟨heq, hall⟩ | ⟨pre, post, hdec, hall⟩
    · refine ⟨first, [], rest, ?_, rfl, ?_, hall⟩
      · simp [selectWorker, heq]
      · rw [heq] at hmin; exact hmin
    · refine ⟨rest.foldl leastLoaded first, first :: pre, post, rfl, ?_, hmin, hall⟩
      rw [List.cons_append, ← hdec]

/-- Witness of the amended C7: among counts 2, 1, 3, 1 the selection returns
the worker with id 3, the last of the two with count 1. -/
theorem selectWorker_last_minimal_witness :
    [Worker.mk 0 2, Worker.mk 1 1, Worker.mk 2 3, Worker.mk 3 1] ≠ [] ∧
    selectWorker [Worker.mk 0 2, Worker.mk 1 1, Worker.mk 2 3, Worker.mk 3 1]
      = some (Worker.mk 3 1) ∧
    ∃ w pre post,
      selectWorker [Worker.mk 0 2, Worker.mk 1 1, Worker.mk 2 3, Worker.mk 3 1] = some w ∧
      [Worker.mk 0 2, Worker.mk 1 1, Worker.mk 2 3, Worker.mk 3 1] = pre ++ w :: post ∧
      (∀ v ∈ [Worker.mk 0 2, Worker.mk 1 1, Worker.mk 2 3, Worker.mk 3 1],
        w.taskCount ≤ v.taskCount) ∧
      (∀ v ∈ post, w.taskCount < v.taskCount) :=
  ⟨by decide, by decide, selectWorker_last_minimal _ (by decide)⟩

/-! ### Dispatcher: the greedy least-loaded invariant -/

/-- The table `processFile` starts from satisfies the invariant. -/
theorem createWorkers_inv (numWorkers : Nat) (h : 1 ≤ numWorkers) :
    DispatchInv (createWorkers numWorkers) := by
  refine ⟨?_, ?_, ?_⟩
  · intro hnil
    have hlen : (createWorkers numWorkers).length = numWorkers := by simp [createWorkers]
    rw [hnil] at hlen
    simp at hlen
    omega
  · have hmap : (createWorkers numWorkers).map Worker.id = List.range numWorkers := by
      simp [createWorkers, Function.comp_def]
    rw [hmap]
    exact List.nodup_range numWorkers
  · intro a ha b hb
    simp only [createWorkers, List.mem_map] at ha hb
    obtain ⟨_, _, rfl⟩ := ha
    obtain ⟨_, _, rfl⟩ := hb
    simp

/-- An assignment succeeds on a table that satisfies the invariant, and the
invariant holds afterwards. -/
theorem assignLine_inv (workers : List Worker) (h : DispatchInv workers) :
    ∃ workers1, assignLine workers = some workers1 ∧ DispatchInv workers1 := by
  obtain ⟨hne, hnodup, hbal⟩ := h
  cases hsel : selectWorker workers with
  | none =>
    cases workers with
    | nil => exact absurd rfl hne
    | cons first rest => simp [selectWorker] at hsel
  | some w =>
    obtain ⟨hmem, hmin⟩ := selectWorker_minimal workers w hsel
    have hid : ∀ v ∈ workers, v.id = w.id → v = w := fun v hv hvid =>
      List.inj_on_of_nodup_map hnodup hv hmem hvid
    have hassign : assignLine workers = some (workers.map (fun v =>
        if v.id = w.id then { v with taskCount := v.taskCount + 1 } else v)) := by
      simp only [assignLine, hsel]
    refine ⟨_, hassign, ?_, ?_, ?_⟩
    · intro hnil
      exact hne (List.map_eq_nil_iff.mp hnil)
    · have hmap : (workers.map (fun v =>
          if v.id = w.id then { v with taskCount := v.taskCount + 1 } else v)).map Worker.id
          = workers.map Worker.id := by
        rw [List.map_map]
        apply List.map_congr_left
        intro v _
        simp only [Function.comp]
        split_ifs <;> rfl
      rw [hmap]
      exact hnodup
    · intro a ha b hb
      simp only [List.mem_map] at ha hb
      obtain ⟨a0, ha0, rfl⟩ := ha
      obtain ⟨b0, hb0, rfl⟩ := hb
      have hab := hbal a0 ha0 b0 hb0
      have haw := hbal a0 ha0 w hmem
      have hwb := hmin b0 hb0
      by_cases hia : a0.id = w.id <;> by_cases hib : b0.id = w.id
      · have ea := hid a0 ha0 hia
        have eb := hid b0 hb0 hib
        subst ea
        simp only [hia, hib, if_true]
        rw [eb]
        omega
      · have ea := hid a0 ha0 hia
        subst ea
        simp only [hib, if_true, if_false]
        omega
      · have eb := hid b0 hb0 hib
        subst eb
        simp only [hia, if_true, if_false]
        omega
      · simp only [hia, hib, if_false]
        exact hab

/-- Handling a `taskCompleted` message leaves the table as it is: the lookup
in the module-level array finds nothing. -/
theorem onTaskCompleted_eq (workers : List Worker) (workerId : Nat) :
    onTaskCompleted workers workerId = workers := by
  simp [onTaskCompleted, moduleWorkers]

/-- Every run of the dispatcher from a table that satisfies the invariant
completes and ends in a table that satisfies it. -/
theorem dispatch_inv (events : List DispatchEvent) :
    ∀ workers, DispatchInv workers →
      ∃ workers1, dispatch workers events = some workers1 ∧ DispatchInv workers1 := by
  induction events with
  | nil => intro workers h; exact ⟨workers, rfl, h⟩
  | cons e rest ih =>
    intro workers h
    cases e with
    | line =>
      obtain ⟨w1, hassign, hinv⟩ := assignLine_inv workers h
      obtain ⟨w2, hrun, hinv2⟩ := ih w1 hinv
      exact ⟨w2, by simp only [dispatch, hassign, hrun], hinv2⟩
    | taskCompleted workerId =>
      obtain ⟨w2, hrun, hinv2⟩ := ih workers h
      exact ⟨w2, by simp only [dispatch, onTaskCompleted_eq, hrun], hinv2⟩

/-- C8: starting with `numWorkers >= 1` workers all at pending count 0, for
every run of the dispatcher (any sequence of line assignments and
`taskCompleted` notifications), the run up to and including any assignment
completes, and immediately after that assignment the pending counts of any two
workers differ by at most 1. -/
theorem greedy_least_loaded (numWorkers : Nat) (hW : 1 ≤ numWorkers)
    (before : List DispatchEvent) :
    ∃ workers, dispatch (createWorkers numWorkers) (before ++ [DispatchEvent.line]) = some workers ∧
      ∀ a ∈ workers, ∀ b ∈ workers, |a.taskCount - b.taskCount| ≤ 1 := by
  obtain ⟨workers, hrun, _, _, hbal⟩ :=
    dispatch_inv (before ++ [DispatchEvent.line]) (createWorkers numWorkers)
      (createWorkers_inv numWorkers hW)
  refine ⟨workers, hrun, ?_⟩
  intro a ha b hb
  have h1 := hbal a ha b hb
  have h2 := hbal b hb a ha
  rw [abs_le]
  constructor <;> omega

/-- Witness of C8: three workers, two assignments, a `taskCompleted` message
from worker 0 and two more assignments. -/
theorem greedy_least_loaded_witness :
    1 ≤ 3 ∧
    dispatch (createWorkers 3)
        ([DispatchEvent.line, DispatchEvent.line, DispatchEvent.taskCompleted 0,
          DispatchEvent.line] ++ [DispatchEvent.line])
      = some [Worker.mk 0 1, Worker.mk 1 1, Worker.mk 2 2] ∧
    ∃ workers,
      dispatch (createWorkers 3)
        ([DispatchEvent.line, DispatchEvent.line, DispatchEvent.taskCompleted 0,
          DispatchEvent.line] ++ [DispatchEvent.line]) = some workers ∧
      ∀ a ∈ workers, ∀ b ∈ workers, |a.taskCount - b.taskCount| ≤ 1 :=
  ⟨by decide, by decide, greedy_least_loaded 3 (by decide) _⟩

/-! ### Worker count -/

/-- For every response and every Person, the phones and emails entries of the
output line are the joined response values alone: the lookups
`originalPerson.Phones` and `originalPerson.Emails` contribute nothing. -/
theorem formatPersonParts_phones_emails (responsePerson : ResponsePerson) (person : Person) :
    (formatPersonParts responsePerson person).get? 7
      = some (jsJoinValues ['|'] (responsePerson.phones.getD [])) ∧
    (formatPersonParts responsePerson person).get? 8
      = some (jsJoinValues ['|'] (responsePerson.emails.getD [])) := by
  simp [formatPersonParts, Person.Phones, Person.Emails]

/-- C10: at the spec's example line, whose Person has Phone "2175550101" and
Email "john@doe.com", and a response with one phone and one email, the phones
and emails fields of the output line hold the response values only; the
original phone and email are not appended. -/
theorem original_phone_email_not_appended :
    parseData exampleToday johnLine = [johnPerson] ∧
    johnPerson.Phone = some "2175550101".toList ∧
    johnPerson.Email = some "john@doe.com".toList ∧
    (formatPersonParts sampleResponse johnPerson).get? 7 = some "3125550199".toList ∧
    (formatPersonParts sampleResponse johnPerson).get? 8 = some "jd@example.com".toList ∧
    (formatPersonParts sampleResponse johnPerson).get? 7 ≠ some "3125550199|2175550101".toList ∧
    (formatPersonParts sampleResponse johnPerson).get? 8
      ≠ some "jd@example.com|john@doe.com".toList ∧
    formatPersonAsLine sampleResponse johnPerson
      = ";01/15/1980;John Middle Doe;123 Main St;Springfield;IL;62704;3125550199;jd@example.com".toList := by
  decide

/-! ### Throttle transition -/

/-- C16: `adjustConcurrency` implements exactly the stated transition on the
state (budget, counter): on failure the counter is incremented, and if the
incremented counter is > 5 and budget > 1 the budget decreases by 1 and the
counter becomes 0, otherwise the budget is unchanged; on success, if the
counter is exactly 0 and budget < MAX_CONCURRENT_REQUESTS the budget increases
by 1, otherwise the state is unchanged. -/
theorem adjustConcurrency_transition (MAX_CONCURRENT_REQUESTS : Int) (s : Throttle)
    (error : Bool) :
    ((adjustConcurrency MAX_CONCURRENT_REQUESTS s error).maxConcurrentRequests,
      (adjustConcurrency MAX_CONCURRENT_REQUESTS s error).requestErrors)
      = specThrottleStep MAX_CONCURRENT_REQUESTS s.maxConcurrentRequests s.requestErrors error := by
  cases error
  · simp only [adjustConcurrency, specThrottleStep, Bool.false_eq_true, if_false]
    split_ifs <;> rfl
  · simp only [adjustConcurrency, specThrottleStep, if_true]
    split_ifs <;> rfl

/-- A success report leaves the error counter as it is. -/
theorem success_keeps_counter (M : Int) (s : Throttle) :
    (adjustConcurrency M s false).requestErrors = s.requestErrors := by
  simp only [adjustConcurrency, Bool.false_eq_true, if_false]
  split_ifs <;> rfl

/-- One call from a state with budget 1 and a positive counter leads to such a
state again. -/
theorem pinned_step (M : Int) (s : Throttle) (e : Bool)
    (h : s.maxConcurrentRequests = 1 ∧ 1 ≤ s.requestErrors) :
    (adjustConcurrency M s e).maxConcurrentRequests = 1 ∧
      1 ≤ (adjustConcurrency M s e).requestErrors := by
  obtain ⟨hb, hc⟩ := h
  cases e
  · have hne : ¬ (s.requestErrors = 0 ∧ s.maxConcurrentRequests < M) := by
      intro hh
      omega
    simp only [adjustConcurrency, Bool.false_eq_true, if_false, hne]
    exact ⟨hb, hc⟩
  · have hne : ¬ (s.requestErrors + 1 > 5 ∧ s.maxConcurrentRequests > 1) := by
      intro hh
      omega
    simp only [adjustConcurrency, if_true, hne, if_false]
    exact ⟨hb, by omega⟩

/-- Any sequence of calls from a state with budget 1 and a positive counter
leads to such a state again. -/
theorem pinned_many (M : Int) (calls : List Bool) :
    ∀ s : Throttle, s.maxConcurrentRequests = 1 ∧ 1 ≤ s.requestErrors →
      (adjustMany M s calls).maxConcurrentRequests = 1 ∧
        1 ≤ (adjustMany M s calls).requestErrors := by
  induction calls with
  | nil => intro s h; simpa [adjustMany] using h
  | cons e rest ih =>
    intro s h
    have := ih (adjustConcurrency M s e) (pinned_step M s e h)
    simpa [adjustMany] using this

/-- C19: a success report never modifies the error counter, and from every
throttle state with budget 1 and error counter at least 1, every subsequent
sequence of `adjustConcurrency(true)` / `adjustConcurrency(false)` calls leaves
the budget equal to 1 (and the counter at least 1). -/
theorem budget_pinned_at_one (MAX_CONCURRENT_REQUESTS : Int) (s : Throttle) (calls : List Bool)
    (hbudget : s.maxConcurrentRequests = 1) (hcounter : 1 ≤ s.requestErrors) :
    (∀ t : Throttle,
      (adjustConcurrency MAX_CONCURRENT_REQUESTS t false).requestErrors = t.requestErrors) ∧
    (adjustMany MAX_CONCURRENT_REQUESTS s calls).maxConcurrentRequests = 1 ∧
    1 ≤ (adjustMany MAX_CONCURRENT_REQUESTS s calls).requestErrors :=
  ⟨success_keeps_counter MAX_CONCURRENT_REQUESTS,
   pinned_many MAX_CONCURRENT_REQUESTS calls s ⟨hbudget, hcounter⟩⟩

/-- Witness of C19: ceiling 50, budget 1, counter 3, then two successes, a
failure and three more successes. -/
theorem budget_pinned_at_one_witness :
    (Throttle.mk 1 3).maxConcurrentRequests = 1 ∧ 1 ≤ (Throttle.mk 1 3).requestErrors ∧
    (∀ t : Throttle, (adjustConcurrency 50 t false).requestErrors = t.requestErrors) ∧
    (adjustMany 50 (Throttle.mk 1 3)
        [false, false, true, false, false, false]).maxConcurrentRequests = 1 ∧
    1 ≤ (adjustMany 50 (Throttle.mk 1 3) [false, false, true, false, false, false]).requestErrors :=
  ⟨by decide, by decide,
   budget_pinned_at_one 50 (Throttle.mk 1 3) [false, false, true, false, false, false]
     (by decide) (by decide)⟩

/-! ### Parser: shape of the parsed Person -/

/-- The Person `parseData` returns for a line with at least 9 fields, field by
field. -/
theorem mem_parseData (today : CalendarDate) (line : JsString) (person : Person)
    (hp : person ∈ parseData today line) :
    ¬ (jsSplit (fun c => c = ';') (jsTrim line)).length < 9 ∧
    person =
      { FirstName :=
          orNull ((jsSplit (fun c => c = ' ')
            (jsTrim ((jsSplit (fun c => c = ';') (jsTrim line)).getD 2 []))).get? 0)
        MiddleName :=
          if (jsSplit (fun c => c = ' ')
              (jsTrim ((jsSplit (fun c => c = ';') (jsTrim line)).getD 2 []))).length > 2 then
            some (jsJoin [' ']
              (((jsSplit (fun c => c = ' ')
                  (jsTrim ((jsSplit (fun c => c = ';') (jsTrim line)).getD 2 []))).take
                ((jsSplit (fun c => c = ' ')
                  (jsTrim ((jsSplit (fun c => c = ';') (jsTrim line)).getD 2 []))).length - 1)).drop
                1))
          else none
        LastName :=
          orNull ((jsSplit (fun c => c = ' ')
            (jsTrim ((jsSplit (fun c => c = ';') (jsTrim line)).getD 2 []))).get?
              ((jsSplit (fun c => c = ' ')
                (jsTrim ((jsSplit (fun c => c = ';') (jsTrim line)).getD 2 []))).length - 1))
        Dob := jsTrim ((jsSplit (fun c => c = ';') (jsTrim line)).getD 1 [])
        Age := calculateAge today (jsTrim ((jsSplit (fun c => c = ';') (jsTrim line)).getD 1 []))
        Address :=
          { AddressLine1 := jsTrim ((jsSplit (fun c => c = ';') (jsTrim line)).getD 3 [])
            AddressLine2 :=
              jsTrim ((jsSplit (fun c => c = ';') (jsTrim line)).getD 4 []) ++ [',', ' '] ++
                jsTrim ((jsSplit (fun c => c = ';') (jsTrim line)).getD 5 []) ++ [' '] ++
                jsTrim ((jsSplit (fun c => c = ';') (jsTrim line)).getD 6 []) }
        Phone :=
          (splitPhonesAndEmails ((jsSplit (fun c => c = ';') (jsTrim line)).getD 7 [])
            ((jsSplit (fun c => c = ';') (jsTrim line)).getD 8 [])).phones.get? 0
        Email :=
          (splitPhonesAndEmails ((jsSplit (fun c => c = ';') (jsTrim line)).getD 7 [])
            ((jsSplit (fun c => c = ';') (jsTrim line)).getD 8 [])).emails.get? 0 } := by
  by_cases hlen : (jsSplit (fun c => c = ';') (jsTrim line)).length < 9
  · simp [parseData, hlen] at hp
  · refine ⟨hlen, ?_⟩
    simp only [parseData, hlen, if_false, List.mem_singleton] at hp
    exact hp

/-! ### Request payload: phone and email -/

/-- Stripping non-digits leaves only digits. -/
theorem all_digits_filter (s : JsString) : (s.filter isJsDigit).all isJsDigit = true := by
  simp [List.all_eq_true, List.mem_filter]

/-- On stripped candidates the test `/^\d{10}$/` is the test for length 10. -/
theorem find_phoneRegexTest (candidates : List JsString) :
    (candidates.map (fun c => c.filter isJsDigit)).find? phoneRegexTest
      = (candidates.map (fun c => c.filter isJsDigit)).find? (fun s => s.length = 10) := by
  induction candidates with
  | nil => rfl
  | cons c rest ih =>
    simp only [List.map_cons, List.find?_cons, phoneRegexTest, all_digits_filter, Bool.and_true]
    rw [ih]

/-- The first phone `splitPhonesAndEmails` accepts is the first candidate with
exactly 10 digits after stripping. -/
theorem splitPhones_first (phonePart emailPart : JsString) :
    (splitPhonesAndEmails phonePart emailPart).phones.get? 0
      = firstTenDigitCandidate phonePart := by
  unfold splitPhonesAndEmails firstTenDigitCandidate
  simp only
  by_cases h : phonePart = []
  · subst h
    decide
  · simp only [h, ne_eq, not_false_eq_true, if_true]
    rw [List.get?_zero, List.filter_head?, find_phoneRegexTest]

/-- C11: for every phone field, splitting it on `|` or `;` into candidates and
stripping all non-digit characters from each, the first phone accepted by
`splitPhonesAndEmails`, which `parseData` stores as the Person's Phone, is the
stripped form of the first candidate that has exactly 10 digits after
stripping, and it is null exactly when no candidate has exactly 10 digits. -/
theorem phone_first_ten_digit_candidate (today : CalendarDate) (line : JsString)
    (phoneField emailField : JsString) :
    (splitPhonesAndEmails phoneField emailField).phones.get? 0
      = firstTenDigitCandidate phoneField ∧
    (∀ person ∈ parseData today line,
      person.Phone
        = firstTenDigitCandidate ((jsSplit (fun c => c = ';') (jsTrim line)).getD 7 [])) ∧
    (firstTenDigitCandidate phoneField = none ↔
      ∀ candidate ∈ jsSplit (fun c => c = '|' || c = ';') phoneField,
        (candidate.filter isJsDigit).length ≠ 10) := by
  refine ⟨splitPhones_first phoneField emailField, ?_, ?_⟩
  · intro person hp
    obtain ⟨_, hperson⟩ := mem_parseData today line person hp
    rw [hperson]
    exact splitPhones_first _ _
  · simp [firstTenDigitCandidate, List.find?_eq_none]

/-- Witness of C11: of the candidates "555-0101", "(217) 555-0102" and
"3125550199" the second is the first with 10 digits, and it is the Phone. -/
theorem phone_first_ten_digit_candidate_witness :
    (parseData exampleToday twoPhonesLine).map (fun p => p.Phone)
      = [some "2175550102".toList] ∧
    firstTenDigitCandidate "555-0101|(217) 555-0102|3125550199".toList
      = some "2175550102".toList ∧
    ∀ person ∈ parseData exampleToday twoPhonesLine,
      person.Phone
        = firstTenDigitCandidate
            ((jsSplit (fun c => c = ';') (jsTrim twoPhonesLine)).getD 7 []) :=
  ⟨by decide, by decide,
   (phone_first_ten_digit_candidate exampleToday twoPhonesLine [] []).2.1⟩

/-! ### Parser: the example line of the spec -/

/-- The age computed for "01/15/1980", for any current date. -/
theorem calculateAge_example (today : CalendarDate) :
    calculateAge today "01/15/1980".toList
      = if today.month - 0 < 0 ∨ (today.month - 0 = 0 ∧ today.date < 15) then
          some (today.year - 1980 - 1) else some (today.year - 1980) := by
  rfl

/-- The example line parses to `johnPerson` with the age of the current
date. -/
theorem parseData_example (today : CalendarDate) :
    parseData today johnLine
      = [{ johnPerson with Age := calculateAge today "01/15/1980".toList }] := by
  rfl

/-- C12: parsing the line
`ID1;01/15/1980;John Middle Doe;123 Main St;Springfield;IL;62704;217-555-0101|;john@doe.com|;`
yields exactly one Person with FirstName "John", MiddleName "Middle", LastName
"Doe", Phone "2175550101", Email "john@doe.com", Dob "01/15/1980", and Age the
number of full years from 15 January 1980 to the current date. -/
theorem parse_example_line (today : CalendarDate) :
    parseData today johnLine =
      [{ FirstName := some "John".toList
         MiddleName := some "Middle".toList
         LastName := some "Doe".toList
         Dob := "01/15/1980".toList
         Age := some (fullYearsBetween { year := 1980, month := 0, date := 15 } today)
         Address :=
           { AddressLine1 := "123 Main St".toList
             AddressLine2 := "Springfield, IL 62704".toList }
         Phone := some "2175550101".toList
         Email := some "john@doe.com".toList }] := by
  rw [parseData_example, calculateAge_example]
  simp only [johnPerson, fullYearsBetween, sub_zero]
  split_ifs <;> rfl

/-! ### Dispatcher: task counts only ever count assignments -/

/-- From a non-empty table every run completes, and each worker's count has
grown by exactly the number of lines posted to it. -/
theorem dispatchTrace_counts (events : List DispatchEvent) :
    ∀ workers : List Worker, workers ≠ [] →
      ∃ assigned, dispatchTrace workers events = some (addAssigned assigned workers, assigned) ∧
        dispatch workers events = some (addAssigned assigned workers) ∧
        assigned.length = events.count DispatchEvent.line := by
  induction events with
  | nil =>
    intro workers _
    refine ⟨[], ?_, ?_, rfl⟩
    · simp [dispatchTrace, addAssigned]
    · simp [dispatch, addAssigned]
  | cons e rest ih =>
    intro workers hne
    cases e with
    | line =>
      cases hsel : selectWorker workers with
      | none =>
        cases workers with
        | nil => exact absurd rfl hne
        | cons first others => simp [selectWorker] at hsel
      | some w =>
        have hassign : assignLine workers = some (workers.map (fun v =>
            if v.id = w.id then { v with taskCount := v.taskCount + 1 } else v)) := by
          simp only [assignLine, hsel]
        have hne1 : workers.map (fun v =>
            if v.id = w.id then { v with taskCount := v.taskCount + 1 } else v) ≠ [] := by
          intro hnil
          exact hne (List.map_eq_nil_iff.mp hnil)
        obtain ⟨assigned, htrace, hrun, hlen⟩ := ih _ hne1
        have hmap : addAssigned assigned (workers.map (fun v =>
              if v.id = w.id then { v with taskCount := v.taskCount + 1 } else v))
            = addAssigned (w.id :: assigned) workers := by
          simp only [addAssigned, List.map_map]
          apply List.map_congr_left
          intro v _
          simp only [Function.comp, List.count_cons]
          by_cases hv : v.id = w.id
          · simp only [hv, if_true, beq_self_eq_true]
            congr 1
            push_cast
            ring
          · have hv2 : (w.id == v.id) = false := by
              simp only [beq_eq_false_iff_ne, ne_eq]
              exact fun h => hv h.symm
            simp only [hv, if_false, hv2, Bool.false_eq_true, add_zero]
        refine ⟨w.id :: assigned, ?_, ?_, ?_⟩
        · simp only [dispatchTrace, hsel, hassign, htrace, hmap]
        · simp only [dispatch, hassign, hrun, hmap]
        · simp [hlen]
    | taskCompleted workerId =>
      obtain ⟨assigned, htrace, hrun, hlen⟩ := ih workers hne
      refine ⟨assigned, ?_, ?_, ?_⟩
      · simp only [dispatchTrace, onTaskCompleted_eq, htrace]
      · simp only [dispatch, onTaskCompleted_eq, hrun]
      · simp [hlen]

/-- A run over `before ++ after` is the run over `before` followed by the run
over `after`. -/
theorem dispatch_append (before after : List DispatchEvent) :
    ∀ workers : List Worker,
      dispatch workers (before ++ after)
        = (dispatch workers before).bind (fun workers1 => dispatch workers1 after) := by
  induction before with
  | nil => intro workers; simp [dispatch]
  | cons e rest ih =>
    intro workers
    cases e with
    | line =>
      cases h : assignLine workers with
      | none => simp [dispatch, h]
      | some workers1 => simp [dispatch, h, ih]
    | taskCompleted workerId => simp [dispatch, ih]

/-- C18: the `taskCompleted` handler never changes any worker's `taskCount`
(its lookup in the module-level `workers` array finds nothing), so for every
run from `numWorkers >= 1` fresh workers each worker's `taskCount` equals the
number of lines assigned to it so far, and between any earlier and any later
point of the run no `taskCount` has decreased. -/
theorem taskCount_counts_assignments (numWorkers : Nat) (hW : 1 ≤ numWorkers)
    (before after : List DispatchEvent) :
    (∀ workers workerId, onTaskCompleted workers workerId = workers) ∧
    (∃ assigned,
      dispatchTrace (createWorkers numWorkers) (before ++ after)
        = some ((createWorkers numWorkers).map
            (fun w => { w with taskCount := (assigned.count w.id : Int) }), assigned) ∧
      assigned.length = (before ++ after).count DispatchEvent.line) ∧
    (∃ earlier later,
      dispatch (createWorkers numWorkers) before = some earlier ∧
      dispatch (createWorkers numWorkers) (before ++ after) = some later ∧
      List.Forall₂ (fun a b => a.id = b.id ∧ a.taskCount ≤ b.taskCount) earlier later) := by
  have hne : createWorkers numWorkers ≠ [] := (createWorkers_inv numWorkers hW).1
  refine ⟨onTaskCompleted_eq, ?_, ?_⟩
  · obtain ⟨assigned, htrace, _, hlen⟩ :=
      dispatchTrace_counts (before ++ after) (createWorkers numWorkers) hne
    refine ⟨assigned, ?_, hlen⟩
    rw [htrace]
    simp [addAssigned, createWorkers]
  · obtain ⟨assigned1, _, hrun1, _⟩ :=
      dispatchTrace_counts before (createWorkers numWorkers) hne
    have hne1 : addAssigned assigned1 (createWorkers numWorkers) ≠ [] := by
      intro hnil
      exact hne (List.map_eq_nil_iff.mp hnil)
    obtain ⟨assigned2, _, hrun2, _⟩ :=
      dispatchTrace_counts after (addAssigned assigned1 (createWorkers numWorkers)) hne1
    refine ⟨addAssigned assigned1 (createWorkers numWorkers),
      addAssigned assigned2 (addAssigned assigned1 (createWorkers numWorkers)), hrun1, ?_, ?_⟩
    · rw [dispatch_append, hrun1]
      exact hrun2
    · rw [addAssigned.eq_1 assigned2]
      simp only [addAssigned, List.forall₂_map_right_iff, List.forall₂_same]
      intro w _
      refine ⟨trivial, ?_⟩
      have : (0 : Int) ≤ (List.count w.id assigned2 : Int) := Int.natCast_nonneg _
      show w.taskCount ≤ w.taskCount + (List.count w.id assigned2 : Int)
      omega

/-- Witness of C18: three workers; two lines, a `taskCompleted` message from
worker 2, then one more line and another message.  Worker 2 received the first
line and still has count 1 at the end. -/
theorem taskCount_counts_assignments_witness :
    1 ≤ 3 ∧
    dispatchTrace (createWorkers 3)
        ([DispatchEvent.line, DispatchEvent.line, DispatchEvent.taskCompleted 2] ++
          [DispatchEvent.line, DispatchEvent.taskCompleted 2])
      = some ([Worker.mk 0 1, Worker.mk 1 1, Worker.mk 2 1], [2, 1, 0]) ∧
    (∃ assigned,
      dispatchTrace (createWorkers 3)
          ([DispatchEvent.line, DispatchEvent.line, DispatchEvent.taskCompleted 2] ++
            [DispatchEvent.line, DispatchEvent.taskCompleted 2])
        = some ((createWorkers 3).map
            (fun w => { w with taskCount := (assigned.count w.id : Int) }), assigned) ∧
      assigned.length
        = ([DispatchEvent.line, DispatchEvent.line, DispatchEvent.taskCompleted 2] ++
            [DispatchEvent.line, DispatchEvent.taskCompleted 2]).count DispatchEvent.line) :=
  ⟨by decide, by decide,
   (taskCount_counts_assignments 3 (by decide)
      [DispatchEvent.line, DispatchEvent.line, DispatchEvent.taskCompleted 2]
      [DispatchEvent.line, DispatchEvent.taskCompleted 2]).2.1⟩

/-! ### Lemmas on `jsSplit`, `jsJoin` and `jsTrim` -/

/-- A split always has at least one piece. -/
theorem jsSplit_ne_nil (p : Char → Bool) (s : JsString) : jsSplit p s ≠ [] := by
  cases s with
  | nil => simp [jsSplit]
  | cons c cs =>
    unfold jsSplit
    split_ifs
    · simp
    · split <;> simp

/-- A string without separator is its own single piece. -/
theorem jsSplit_of_no_sep (p : Char → Bool) (s : JsString) (h : ∀ c ∈ s, p c = false) :
    jsSplit p s = [s] := by
  induction s with
  | nil => rfl
  | cons c cs ih =>
    have hc : p c = false := h c (List.mem_cons_self _ _)
    have hcs : jsSplit p cs = [cs] := ih (fun d hd => h d (List.mem_cons_of_mem _ hd))
    simp [jsSplit, hc, hcs]

/-- A separator after a separator-free prefix ends the first piece. -/
theorem jsSplit_append_sep (p : Char → Bool) (a b : JsString) (sep : Char)
    (ha : ∀ c ∈ a, p c = false) (hsep : p sep = true) :
    jsSplit p (a ++ sep :: b) = a :: jsSplit p b := by
  induction a with
  | nil => simp [jsSplit, hsep]
  | cons c cs ih =>
    have hc : p c = false := ha c (List.mem_cons_self _ _)
    have hcs := ih (fun d hd => ha d (List.mem_cons_of_mem _ hd))
    simp [jsSplit, hc, hcs]

/-- Joining at least two parts. -/
theorem jsJoin_cons_cons (sep a b : JsString) (rest : List JsString) :
    jsJoin sep (a :: b :: rest) = a ++ sep ++ jsJoin sep (b :: rest) := by
  simp [jsJoin, List.intercalate, List.intersperse]

/-- Joining a single part. -/
theorem jsJoin_singleton (sep a : JsString) : jsJoin sep [a] = a := by
  simp [jsJoin, List.intercalate, List.intersperse]

/-- Splitting undoes joining when no part contains a separator. -/
theorem jsSplit_jsJoin (p : Char → Bool) (sep : Char) (hsep : p sep = true)
    (parts : List JsString) (hne : parts ≠ [])
    (hparts : ∀ part ∈ parts, ∀ c ∈ part, p c = false) :
    jsSplit p (jsJoin [sep] parts) = parts := by
  induction parts with
  | nil => exact absurd rfl hne
  | cons a rest ih =>
    cases rest with
    | nil =>
      rw [jsJoin_singleton]
      exact jsSplit_of_no_sep p a (hparts a (List.mem_cons_self _ _))
    | cons b rest1 =>
      rw [jsJoin_cons_cons, List.append_assoc, List.singleton_append,
        jsSplit_append_sep p a _ sep (hparts a (List.mem_cons_self _ _)) hsep,
        ih (by simp) (fun part hpart => hparts part (List.mem_cons_of_mem _ hpart))]

/-- The characters of a piece are characters of the string. -/
theorem mem_of_mem_jsSplit (p : Char → Bool) (s : JsString) :
    ∀ piece ∈ jsSplit p s, ∀ c ∈ piece, c ∈ s := by
  induction s with
  | nil =>
    intro piece hpiece c hc
    simp [jsSplit] at hpiece
    subst hpiece
    simp at hc
  | cons d ds ih =>
    intro piece hpiece c hc
    unfold jsSplit at hpiece
    split_ifs at hpiece with hd
    · rcases List.mem_cons.mp hpiece with rfl | hrest
      · simp at hc
      · exact List.mem_cons_of_mem _ (ih piece hrest c hc)
    · split at hpiece
      · simp at hpiece
        subst hpiece
        simp at hc
        subst hc
        exact List.mem_cons_self _ _
      · rename_i first others heq
        rcases List.mem_cons.mp hpiece with rfl | hrest
        · rcases List.mem_cons.mp hc with rfl | hc1
          · exact List.mem_cons_self _ _
          · exact List.mem_cons_of_mem _ (ih first (by rw [heq]; exact List.mem_cons_self _ _) c hc1)
        · exact List.mem_cons_of_mem _
            (ih piece (by rw [heq]; exact List.mem_cons_of_mem _ hrest) c hc)

/-- No piece contains a separator. -/
theorem no_sep_of_mem_jsSplit (p : Char → Bool) (s : JsString) :
    ∀ piece ∈ jsSplit p s, ∀ c ∈ piece, p c = false := by
  induction s with
  | nil =>
    intro piece hpiece c hc
    simp [jsSplit] at hpiece
    subst hpiece
    simp at hc
  | cons d ds ih =>
    intro piece hpiece c hc
    unfold jsSplit at hpiece
    split_ifs at hpiece with hd
    · rcases List.mem_cons.mp hpiece with rfl | hrest
      · simp at hc
      · exact ih piece hrest c hc
    · split at hpiece
      · simp at hpiece
        subst hpiece
        simp at hc
        subst hc
        simpa using hd
      · rename_i first others heq
        rcases List.mem_cons.mp hpiece with rfl | hrest
        · rcases List.mem_cons.mp hc with rfl | hc1
          · simpa using hd
          · exact ih first (by rw [heq]; exact List.mem_cons_self _ _) c hc1
        · exact ih piece (by rw [heq]; exact List.mem_cons_of_mem _ hrest) c hc

/-- The characters of a joined string come from the separator or the parts. -/
theorem mem_jsJoin (sep : JsString) (parts : List JsString) (c : Char)
    (hc : c ∈ jsJoin sep parts) : c ∈ sep ∨ ∃ part ∈ parts, c ∈ part := by
  induction parts with
  | nil => simp [jsJoin, List.intercalate] at hc
  | cons a rest ih =>
    cases rest with
    | nil =>
      rw [jsJoin_singleton] at hc
      exact Or.inr ⟨a, List.mem_cons_self _ _, hc⟩
    | cons b rest1 =>
      rw [jsJoin_cons_cons] at hc
      rcases List.mem_append.mp hc with h | h
      · rcases List.mem_append.mp h with h | h
        · exact Or.inr ⟨a, List.mem_cons_self _ _, h⟩
        · exact Or.inl h
      · rcases ih h with h | ⟨part, hpart, hcp⟩
        · exact Or.inl h
        · exact Or.inr ⟨part, List.mem_cons_of_mem _ hpart, hcp⟩

/-- The characters of a trimmed string are characters of the string. -/
theorem mem_of_mem_jsTrim (s : JsString) (c : Char) (hc : c ∈ jsTrim s) : c ∈ s := by
  unfold jsTrim at hc
  rw [List.mem_reverse] at hc
  have h1 := (List.dropWhile_suffix isJsWhitespace).subset hc
  rw [List.mem_reverse] at h1
  exact (List.dropWhile_suffix isJsWhitespace).subset h1

/-- A string that neither starts nor ends with white space is left alone by
`trim`. -/
theorem jsTrim_eq_self (s : JsString)
    (hhead : ∀ c, s.head? = some c → isJsWhitespace c = false)
    (hlast : ∀ c, s.getLast? = some c → isJsWhitespace c = false) : jsTrim s = s := by
  have drop_eq : ∀ l : List Char, (∀ c, l.head? = some c → isJsWhitespace c = false) →
      l.dropWhile isJsWhitespace = l := by
    intro l hl
    cases l with
    | nil => rfl
    | cons d ds =>
      have := hl d rfl
      simp [List.dropWhile, this]
  unfold jsTrim
  rw [drop_eq s hhead, drop_eq s.reverse (by simpa using hlast), List.reverse_reverse]

/-- A trimmed string does not start with white space. -/
theorem jsTrim_head (s : JsString) (c : Char) (h : (jsTrim s).head? = some c) :
    isJsWhitespace c = false := by
  unfold jsTrim at h
  have hpre : ((s.dropWhile isJsWhitespace).reverse.dropWhile isJsWhitespace).reverse
      <+: s.dropWhile isJsWhitespace := by
    have := List.dropWhile_suffix isJsWhitespace (l := (s.dropWhile isJsWhitespace).reverse)
    rw [← List.reverse_prefix, List.reverse_reverse] at this
    exact this
  obtain ⟨t, ht⟩ := hpre
  have hhead : (s.dropWhile isJsWhitespace).head? = some c := by
    rw [← ht]
    cases hv : ((s.dropWhile isJsWhitespace).reverse.dropWhile isJsWhitespace).reverse with
    | nil => rw [hv] at h; simp at h
    | cons d ds =>
      rw [hv] at h
      simp only [List.head?_cons, Option.some.injEq] at h
      subst h
      rfl
  have := List.head?_dropWhile_not isJsWhitespace s
  rw [hhead] at this
  simpa using this

/-- A trimmed string does not end with white space. -/
theorem jsTrim_last (s : JsString) (c : Char) (h : (jsTrim s).getLast? = some c) :
    isJsWhitespace c = false := by
  unfold jsTrim at h
  rw [List.getLast?_reverse] at h
  have := List.head?_dropWhile_not isJsWhitespace (s.dropWhile isJsWhitespace).reverse
  rw [h] at this
  simpa using this

/-- Trimming twice is trimming once. -/
theorem jsTrim_idem (s : JsString) : jsTrim (jsTrim s) = jsTrim s :=
  jsTrim_eq_self (jsTrim s) (jsTrim_head s) (jsTrim_last s)

/-! ### Output line: address taken from the original Person -/

/-- The fallback address recovers street, city, state and zip from the two
address lines built by the parser. -/
theorem fallbackAddress_round_trip (street city state zip : JsString)
    (hcity : jsTrim city = city)
    (hstate : ∀ c, state.head? = some c → isJsWhitespace c = false) (hstate_ne : state ≠ [])
    (hzip : ∀ c, zip.getLast? = some c → isJsWhitespace c = false) (hzip_ne : zip ≠ [])
    (hcomma_city : ',' ∉ city) (hcomma_state : ',' ∉ state) (hcomma_zip : ',' ∉ zip)
    (hspace_state : ' ' ∉ state) (hspace_zip : ' ' ∉ zip) :
    fallbackAddress
        { AddressLine1 := street
          AddressLine2 := city ++ [',', ' '] ++ state ++ [' '] ++ zip }
      = { street := some street, city := some city, state := some state, zip := some zip } := by
  have hshape : city ++ [',', ' '] ++ state ++ [' '] ++ zip
      = city ++ ',' :: (' ' :: (state ++ ' ' :: zip)) := by simp
  have hsplit1 : jsSplit (fun c => c = ',') (city ++ [',', ' '] ++ state ++ [' '] ++ zip)
      = [city, ' ' :: (state ++ ' ' :: zip)] := by
    rw [hshape, jsSplit_append_sep _ city _ ',' _ (by simp), jsSplit_of_no_sep]
    · intro c hc
      simp only [decide_eq_false_iff_not]
      intro hceq
      subst hceq
      simp only [List.mem_cons, List.mem_append] at hc
      rcases hc with h | h | h | h
      · exact absurd h (by decide)
      · exact hcomma_state h
      · exact absurd h (by decide)
      · exact hcomma_zip h
    · intro c hc
      simp only [decide_eq_false_iff_not]
      intro hceq
      subst hceq
      exact hcomma_city hc
  have htrim : jsTrim (' ' :: (state ++ ' ' :: zip)) = state ++ ' ' :: zip := by
    have hstep : jsTrim (' ' :: (state ++ ' ' :: zip)) = jsTrim (state ++ ' ' :: zip) := by
      have hws : isJsWhitespace ' ' = true := by decide
      simp only [jsTrim, List.dropWhile, hws]
    rw [hstep]
    apply jsTrim_eq_self
    · intro c hc
      cases state with
      | nil => exact absurd rfl hstate_ne
      | cons d ds => exact hstate c (by simpa using hc)
    · intro c hc
      apply hzip c
      rw [← hc]
      have : state ++ ' ' :: zip = (state ++ [' ']) ++ zip := by simp
      rw [this, List.getLast?_append_of_ne_nil _ hzip_ne]
  have hsplit2 : jsSplit (fun c => c = ' ') (state ++ ' ' :: zip) = [state, zip] := by
    rw [jsSplit_append_sep _ state _ ' ' _ (by simp), jsSplit_of_no_sep]
    · intro c hc
      simp only [decide_eq_false_iff_not]
      intro hceq
      subst hceq
      exact hspace_zip hc
    · intro c hc
      simp only [decide_eq_false_iff_not]
      intro hceq
      subst hceq
      exact hspace_state hc
  unfold fallbackAddress
  simp only [hsplit1]
  simp [htrim, hsplit2, hcity]

/-- C17: for every input line with at least 9 fields whose trimmed street,
city, state and zip (fields 4 to 7) are non-empty, with no `,` in city, state
or zip and no space in state or zip, when the API response has no addresses
(missing or empty list) the street, city, state and zip entries of the output
line of the parsed Person equal the trimmed input fields 4, 5, 6 and 7. -/
theorem address_round_trip (today : CalendarDate) (line : JsString)
    (responsePerson : ResponsePerson)
    (hlen : ¬ (jsSplit (fun c => c = ';') (jsTrim line)).length < 9)
    (_hstreet : jsTrim ((jsSplit (fun c => c = ';') (jsTrim line)).getD 3 []) ≠ [])
    (_hcity : jsTrim ((jsSplit (fun c => c = ';') (jsTrim line)).getD 4 []) ≠ [])
    (hstate : jsTrim ((jsSplit (fun c => c = ';') (jsTrim line)).getD 5 []) ≠ [])
    (hzip : jsTrim ((jsSplit (fun c => c = ';') (jsTrim line)).getD 6 []) ≠ [])
    (hcomma_city : ',' ∉ jsTrim ((jsSplit (fun c => c = ';') (jsTrim line)).getD 4 []))
    (hcomma_state : ',' ∉ jsTrim ((jsSplit (fun c => c = ';') (jsTrim line)).getD 5 []))
    (hcomma_zip : ',' ∉ jsTrim ((jsSplit (fun c => c = ';') (jsTrim line)).getD 6 []))
    (hspace_state : ' ' ∉ jsTrim ((jsSplit (fun c => c = ';') (jsTrim line)).getD 5 []))
    (hspace_zip : ' ' ∉ jsTrim ((jsSplit (fun c => c = ';') (jsTrim line)).getD 6 []))
    (haddr : responsePerson.addresses = none ∨ responsePerson.addresses = some []) :
    ∃ person, parseData today line = [person] ∧
      (formatPersonParts responsePerson person).get? 3
        = some (jsTrim ((jsSplit (fun c => c = ';') (jsTrim line)).getD 3 [])) ∧
      (formatPersonParts responsePerson person).get? 4
        = some (jsTrim ((jsSplit (fun c => c = ';') (jsTrim line)).getD 4 [])) ∧
      (formatPersonParts responsePerson person).get? 5
        = some (jsTrim ((jsSplit (fun c => c = ';') (jsTrim line)).getD 5 [])) ∧
      (formatPersonParts responsePerson person).get? 6
        = some (jsTrim ((jsSplit (fun c => c = ';') (jsTrim line)).getD 6 [])) := by
  have hparse : ∃ person, parseData today line = [person] := by
    unfold parseData
    simp only [hlen, if_false]
    exact ⟨_, rfl⟩
  obtain ⟨person, hperson⟩ := hparse
  refine ⟨person, hperson, ?_⟩
  obtain ⟨_, hfields⟩ := mem_parseData today line person (by rw [hperson]; simp)
  have hfb := fallbackAddress_round_trip
    (jsTrim ((jsSplit (fun c => c = ';') (jsTrim line)).getD 3 []))
    (jsTrim ((jsSplit (fun c => c = ';') (jsTrim line)).getD 4 []))
    (jsTrim ((jsSplit (fun c => c = ';') (jsTrim line)).getD 5 []))
    (jsTrim ((jsSplit (fun c => c = ';') (jsTrim line)).getD 6 []))
    (jsTrim_idem _) (jsTrim_head _) hstate (jsTrim_last _) hzip
    hcomma_city hcomma_state hcomma_zip hspace_state hspace_zip
  have haddrs : (responsePerson.addresses.getD []).get? 0 = none := by
    rcases haddr with h | h <;> simp [h]
  have hA : person.Address =
      { AddressLine1 := jsTrim ((jsSplit (fun c => c = ';') (jsTrim line)).getD 3 [])
        AddressLine2 :=
          jsTrim ((jsSplit (fun c => c = ';') (jsTrim line)).getD 4 []) ++ [',', ' '] ++
            jsTrim ((jsSplit (fun c => c = ';') (jsTrim line)).getD 5 []) ++ [' '] ++
            jsTrim ((jsSplit (fun c => c = ';') (jsTrim line)).getD 6 []) } := by
    rw [hfields]
  simp only [formatPersonParts, haddrs, Option.getD_none, hA, hfb, orEmpty, Option.getD_some]
  simp

/-! ### Parser: name parts -/

/-- C13, as stated, fails.  With two spaces between "John" and "Doe" the
tokens are "John" and "Doe", with no interior token, yet MiddleName is the
empty string rather than null; with a tab between them the tokens are the same
two, yet FirstName and LastName are both the whole field. -/
theorem name_tokens_counterexample :
    whitespaceTokens (jsTrim ((jsSplit (fun c => c = ';') (jsTrim doubleSpaceLine)).getD 2 []))
      = ["John".toList, "Doe".toList] ∧
    (parseData exampleToday doubleSpaceLine).map (fun p => p.MiddleName) = [some []] ∧
    (parseData exampleToday doubleSpaceLine).map (fun p => p.MiddleName) ≠ [none] ∧
    whitespaceTokens (jsTrim ((jsSplit (fun c => c = ';') (jsTrim tabLine)).getD 2 []))
      = ["John".toList, "Doe".toList] ∧
    (parseData exampleToday tabLine).map (fun p => p.FirstName) = [some "John\tDoe".toList] ∧
    (parseData exampleToday tabLine).map (fun p => p.FirstName) ≠ [some "John".toList] ∧
    (parseData exampleToday tabLine).map (fun p => p.LastName) ≠ [some "Doe".toList] := by
  decide

/-- When a name is its tokens joined by single spaces, splitting it on the
space gives the first token, the last token and the interior tokens as the
code reads them. -/
theorem name_pieces_of_tokens (name : JsString) (tokens : List JsString)
    (hname : name = jsJoin [' '] tokens)
    (hne : ∀ t ∈ tokens, t ≠ [])
    (hws : ∀ t ∈ tokens, ∀ c ∈ t, isJsWhitespace c = false) :
    orNull ((jsSplit (fun c => c = ' ') name).get? 0) = tokens.head? ∧
    orNull ((jsSplit (fun c => c = ' ') name).get?
      ((jsSplit (fun c => c = ' ') name).length - 1)) = tokens.getLast? ∧
    (if (jsSplit (fun c => c = ' ') name).length > 2 then
        some (jsJoin [' '] (((jsSplit (fun c => c = ' ') name).take
          ((jsSplit (fun c => c = ' ') name).length - 1)).drop 1))
      else none)
      = (if interiorTokens tokens = [] then none
          else some (jsJoin [' '] (interiorTokens tokens))) := by
  by_cases htok : tokens = []
  · subst htok
    subst hname
    decide
  · have hsplit : jsSplit (fun c => c = ' ') name = tokens := by
      rw [hname]
      apply jsSplit_jsJoin _ ' ' (by simp) tokens htok
      intro t ht c hc
      have h1 := hws t ht c hc
      simp only [decide_eq_false_iff_not]
      intro hceq
      subst hceq
      exact absurd h1 (by decide)
    rw [hsplit]
    refine ⟨?_, ?_, ?_⟩
    · cases tokens with
      | nil => exact absurd rfl htok
      | cons t rest =>
        have := hne t (List.mem_cons_self _ _)
        simp [orNull, this]
    · have hlast : tokens.get? (tokens.length - 1) = tokens.getLast? := by
        rw [List.getLast?_eq_getElem?, List.get?_eq_getElem?]
      rw [hlast]
      cases hl : tokens.getLast? with
      | none => rfl
      | some t =>
        have hmem : t ∈ tokens := List.mem_of_getLast?_eq_some hl
        have := hne t hmem
        simp [orNull, this]
    · have hlen : (interiorTokens tokens).length = tokens.length - 1 - 1 := by
        simp [interiorTokens, List.length_drop, List.length_take]
      by_cases h2 : tokens.length > 2
      · have hnil : interiorTokens tokens ≠ [] := by
          intro h
          rw [h] at hlen
          simp at hlen
          omega
        simp only [h2, if_true, hnil, if_false]
        rfl
      · have hnil : interiorTokens tokens = [] := by
          apply List.eq_nil_of_length_eq_zero
          omega
        simp only [h2, if_false, hnil, if_true]

/-- C13 (amended): for every line with at least 9 fields, with the pieces of
field 3 being the parts of the trimmed field between single space characters:
FirstName is the first piece and LastName the last piece (null when that piece
is empty), and MiddleName is the pieces between them joined with single
spaces, null when there are fewer than three pieces.  When the trimmed field is
its whitespace-delimited tokens joined by exactly one space each, FirstName is
the first token, LastName the last token and MiddleName the interior tokens
joined with single spaces, null when there are no interior tokens. -/
theorem name_parts (today : CalendarDate) (line : JsString)
    (hlen : ¬ (jsSplit (fun c => c = ';') (jsTrim line)).length < 9) :
    ∃ person, parseData today line = [person] ∧
      (person.FirstName
          = orNull ((jsSplit (fun c => c = ' ')
              (jsTrim ((jsSplit (fun c => c = ';') (jsTrim line)).getD 2 []))).head?) ∧
        person.LastName
          = orNull ((jsSplit (fun c => c = ' ')
              (jsTrim ((jsSplit (fun c => c = ';') (jsTrim line)).getD 2 []))).getLast?) ∧
        person.MiddleName
          = if (jsSplit (fun c => c = ' ')
                (jsTrim ((jsSplit (fun c => c = ';') (jsTrim line)).getD 2 []))).length > 2 then
              some (jsJoin [' '] (interiorTokens (jsSplit (fun c => c = ' ')
                (jsTrim ((jsSplit (fun c => c = ';') (jsTrim line)).getD 2 [])))))
            else none) ∧
      (jsTrim ((jsSplit (fun c => c = ';') (jsTrim line)).getD 2 [])
          = jsJoin [' '] (whitespaceTokens
              (jsTrim ((jsSplit (fun c => c = ';') (jsTrim line)).getD 2 []))) →
        person.FirstName
          = (whitespaceTokens
              (jsTrim ((jsSplit (fun c => c = ';') (jsTrim line)).getD 2 []))).head? ∧
        person.LastName
          = (whitespaceTokens
              (jsTrim ((jsSplit (fun c => c = ';') (jsTrim line)).getD 2 []))).getLast? ∧
        person.MiddleName
          = if interiorTokens (whitespaceTokens
                (jsTrim ((jsSplit (fun c => c = ';') (jsTrim line)).getD 2 []))) = [] then none
            else some (jsJoin [' '] (interiorTokens (whitespaceTokens
                (jsTrim ((jsSplit (fun c => c = ';') (jsTrim line)).getD 2 [])))))) := by
  have hparse : ∃ person, parseData today line = [person] := by
    unfold parseData
    simp only [hlen, if_false]
    exact ⟨_, rfl⟩
  obtain ⟨person, hperson⟩ := hparse
  refine ⟨person, hperson, ?_, ?_⟩
  · obtain ⟨_, hfields⟩ := mem_parseData today line person (by rw [hperson]; simp)
    rw [hfields]
    refine ⟨?_, ?_, ?_⟩
    · simp only [List.get?_zero]
    · simp only [List.getLast?_eq_getElem?, List.get?_eq_getElem?]
    · rfl
  · intro hjoin
    obtain ⟨_, hfields⟩ := mem_parseData today line person (by rw [hperson]; simp)
    have htokens := name_pieces_of_tokens
      (jsTrim ((jsSplit (fun c => c = ';') (jsTrim line)).getD 2 []))
      (whitespaceTokens (jsTrim ((jsSplit (fun c => c = ';') (jsTrim line)).getD 2 [])))
      hjoin
      (fun t ht => by
        have := (List.mem_filter.mp ht).2
        simpa using this)
      (fun t ht c hc =>
        no_sep_of_mem_jsSplit isJsWhitespace _ t (List.mem_filter.mp ht).1 c hc)
    rw [hfields]
    exact htokens

/-- Witness of the amended C13: on the spec's example line the name field
"John Middle Doe" is its three tokens joined by single spaces. -/
theorem name_parts_witness :
    ¬ (jsSplit (fun c => c = ';') (jsTrim johnLine)).length < 9 ∧
    jsTrim ((jsSplit (fun c => c = ';') (jsTrim johnLine)).getD 2 [])
      = jsJoin [' '] (whitespaceTokens
          (jsTrim ((jsSplit (fun c => c = ';') (jsTrim johnLine)).getD 2 []))) ∧
    whitespaceTokens (jsTrim ((jsSplit (fun c => c = ';') (jsTrim johnLine)).getD 2 []))
      = ["John".toList, "Middle".toList, "Doe".toList] ∧
    ∃ person, parseData exampleToday johnLine = [person] ∧
      (person.FirstName
          = orNull ((jsSplit (fun c => c = ' ')
              (jsTrim ((jsSplit (fun c => c = ';') (jsTrim johnLine)).getD 2 []))).head?) ∧
        person.LastName
          = orNull ((jsSplit (fun c => c = ' ')
              (jsTrim ((jsSplit (fun c => c = ';') (jsTrim johnLine)).getD 2 []))).getLast?) ∧
        person.MiddleName
          = if (jsSplit (fun c => c = ' ')
                (jsTrim ((jsSplit (fun c => c = ';') (jsTrim johnLine)).getD 2 []))).length > 2 then
              some (jsJoin [' '] (interiorTokens (jsSplit (fun c => c = ' ')
                (jsTrim ((jsSplit (fun c => c = ';') (jsTrim johnLine)).getD 2 [])))))
            else none) ∧
      (jsTrim ((jsSplit (fun c => c = ';') (jsTrim johnLine)).getD 2 [])
          = jsJoin [' '] (whitespaceTokens
              (jsTrim ((jsSplit (fun c => c = ';') (jsTrim johnLine)).getD 2 []))) →
        person.FirstName
          = (whitespaceTokens
              (jsTrim ((jsSplit (fun c => c = ';') (jsTrim johnLine)).getD 2 []))).head? ∧
        person.LastName
          = (whitespaceTokens
              (jsTrim ((jsSplit (fun c => c = ';') (jsTrim johnLine)).getD 2 []))).getLast? ∧
        person.MiddleName
          = if interiorTokens (whitespaceTokens
                (jsTrim ((jsSplit (fun c => c = ';') (jsTrim johnLine)).getD 2 []))) = [] then none
            else some (jsJoin [' '] (interiorTokens (whitespaceTokens
                (jsTrim ((jsSplit (fun c => c = ';') (jsTrim johnLine)).getD 2 [])))))) :=
  ⟨by decide, by decide, by decide, name_parts exampleToday johnLine (by decide)⟩

/-- Witness of C17: the spec's example line with a response that has no
addresses gives back "123 Main St", "Springfield", "IL" and "62704". -/
theorem address_round_trip_witness :
    (formatPersonParts sampleResponse johnPerson).get? 3 = some "123 Main St".toList ∧
    (formatPersonParts sampleResponse johnPerson).get? 4 = some "Springfield".toList ∧
    (formatPersonParts sampleResponse johnPerson).get? 5 = some "IL".toList ∧
    (formatPersonParts sampleResponse johnPerson).get? 6 = some "62704".toList ∧
    ∃ person, parseData exampleToday johnLine = [person] ∧
      (formatPersonParts sampleResponse person).get? 3
        = some (jsTrim ((jsSplit (fun c => c = ';') (jsTrim johnLine)).getD 3 [])) ∧
      (formatPersonParts sampleResponse person).get? 4
        = some (jsTrim ((jsSplit (fun c => c = ';') (jsTrim johnLine)).getD 4 [])) ∧
      (formatPersonParts sampleResponse person).get? 5
        = some (jsTrim ((jsSplit (fun c => c = ';') (jsTrim johnLine)).getD 5 [])) ∧
      (formatPersonParts sampleResponse person).get? 6
        = some (jsTrim ((jsSplit (fun c => c = ';') (jsTrim johnLine)).getD 6 [])) :=
  ⟨by decide, by decide, by decide, by decide,
   address_round_trip exampleToday johnLine sampleResponse (by decide) (by decide) (by decide)
     (by decide) (by decide) (by decide) (by decide) (by decide) (by decide) (by decide)
     (Or.inl rfl)⟩

/-! ### Output line: nine fields -/

/-- The number of pieces of a split is the number of separators plus one. -/
theorem length_jsSplit (p : Char → Bool) (s : JsString) :
    (jsSplit p s).length = (s.filter p).length + 1 := by
  induction s with
  | nil => rfl
  | cons c cs ih =>
    unfold jsSplit
    by_cases hc : p c = true
    · simp [hc, ih]
    · have hc2 : p c = false := by simpa using hc
      simp only [hc2, Bool.false_eq_true, if_false]
      split
      · rename_i heq
        exact absurd heq (jsSplit_ne_nil p cs)
      · rename_i first others heq
        rw [heq] at ih
        simp [List.filter, hc2] at ih ⊢
        omega

/-- Dropping leading characters that are not kept by a filter does not change
the filtered list. -/
theorem filter_dropWhile (p q : Char → Bool) (h : ∀ c, q c = true → p c = false)
    (l : List Char) : (l.dropWhile q).filter p = l.filter p := by
  induction l with
  | nil => rfl
  | cons c cs ih =>
    by_cases hq : q c = true
    · simp [List.dropWhile, hq, ih, List.filter, h c hq]
    · have hq2 : q c = false := by simpa using hq
      simp [List.dropWhile, hq2]

/-- Trimming removes no separator that is not white space. -/
theorem filter_jsTrim (p : Char → Bool) (h : ∀ c, isJsWhitespace c = true → p c = false)
    (s : JsString) : (jsTrim s).filter p = s.filter p := by
  unfold jsTrim
  rw [List.filter_reverse, filter_dropWhile p isJsWhitespace h, List.filter_reverse,
    List.reverse_reverse, filter_dropWhile p isJsWhitespace h]

/-- The characters of the fallback address come from the two address lines. -/
theorem fallbackAddress_chars (address : Address) (c : Char) :
    (c ∈ orEmpty (fallbackAddress address).street → c ∈ address.AddressLine1) ∧
    (c ∈ orEmpty (fallbackAddress address).city → c ∈ address.AddressLine2) ∧
    (c ∈ orEmpty (fallbackAddress address).state → c ∈ address.AddressLine2) ∧
    (c ∈ orEmpty (fallbackAddress address).zip → c ∈ address.AddressLine2) := by
  have hafter : ∀ piece, (jsSplit (fun c => c = ',') address.AddressLine2).get? 1 = some piece →
      ∀ i q, (jsSplit (fun c => c = ' ') (jsTrim piece)).get? i = some q →
        c ∈ q → c ∈ address.AddressLine2 := by
    intro piece hpiece i q hq hcq
    have h1 := mem_of_mem_jsSplit _ _ q (List.get?_mem hq) c hcq
    have h2 := mem_of_mem_jsTrim _ _ h1
    exact mem_of_mem_jsSplit _ _ piece (List.get?_mem hpiece) c h2
  refine ⟨?_, ?_, ?_, ?_⟩
  · intro hc
    simpa [fallbackAddress, orEmpty] using hc
  · intro hc
    unfold fallbackAddress at hc
    simp only at hc
    cases h0 : (jsSplit (fun c => c = ',') address.AddressLine2).get? 0 with
    | none => rw [h0] at hc; simp [orEmpty] at hc
    | some piece =>
      rw [h0] at hc
      simp only [Option.map_some', orEmpty, Option.getD_some] at hc
      exact mem_of_mem_jsSplit _ _ piece (List.get?_mem h0) c (mem_of_mem_jsTrim _ _ hc)
  · intro hc
    unfold fallbackAddress at hc
    simp only at hc
    cases h1 : (jsSplit (fun c => c = ',') address.AddressLine2).get? 1 with
    | none => rw [h1] at hc; simp [orEmpty] at hc
    | some piece =>
      rw [h1] at hc
      simp only [Option.map_some', Option.some_bind] at hc
      cases hq : (jsSplit (fun c => c = ' ') (jsTrim piece)).get? 0 with
      | none => rw [hq] at hc; simp [orEmpty] at hc
      | some q =>
        rw [hq] at hc
        exact hafter piece h1 0 q hq (by simpa [orEmpty] using hc)
  · intro hc
    unfold fallbackAddress at hc
    simp only at hc
    cases h1 : (jsSplit (fun c => c = ',') address.AddressLine2).get? 1 with
    | none => rw [h1] at hc; simp [orEmpty] at hc
    | some piece =>
      rw [h1] at hc
      simp only [Option.map_some', Option.some_bind] at hc
      cases hq : (jsSplit (fun c => c = ' ') (jsTrim piece)).get? 1 with
      | none => rw [hq] at hc; simp [orEmpty] at hc
      | some q =>
        rw [hq] at hc
        exact hafter piece h1 1 q hq (by simpa [orEmpty] using hc)

/-- Joined values without `;` contain no `;`. -/
theorem noSemicolon_jsJoinValues (values : List (Option JsString))
    (h : ∀ v ∈ values, NoSemicolon (orEmpty v)) : NoSemicolon (jsJoinValues ['|'] values) := by
  intro hc
  rcases mem_jsJoin _ _ _ hc with h1 | ⟨part, hpart, hcp⟩
  · exact absurd h1 (by decide)
  · obtain ⟨v, hv, rfl⟩ := List.mem_map.mp hpart
    exact h v hv hcp

/-- No entry of the output line contains a `;` when no input string does. -/
theorem noSemicolon_parts (responsePerson : ResponsePerson) (originalPerson : Person)
    (hp : originalPerson.NoSemicolon) (hr : responsePerson.NoSemicolon) :
    ∀ part ∈ formatPersonParts responsePerson originalPerson, NoSemicolon part := by
  obtain ⟨hfirst, hmiddle, hlast, hdob, hline1, hline2, _, _⟩ := hp
  obtain ⟨haddr, hphones, hemails⟩ := hr
  have hmost : ∀ a, a = ((responsePerson.addresses.getD []).get? 0).getD
        (fallbackAddress originalPerson.Address) →
      NoSemicolon (orEmpty a.street) ∧ NoSemicolon (orEmpty a.city) ∧
      NoSemicolon (orEmpty a.state) ∧ NoSemicolon (orEmpty a.zip) := by
    intro a ha
    cases h0 : (responsePerson.addresses.getD []).get? 0 with
    | some a0 =>
      rw [h0] at ha
      simp only [Option.getD_some] at ha
      subst ha
      exact haddr a (List.get?_mem h0)
    | none =>
      rw [h0] at ha
      simp only [Option.getD_none] at ha
      subst ha
      have hch := fallbackAddress_chars originalPerson.Address ';'
      exact ⟨fun h => hline1 (hch.1 h), fun h => hline2 (hch.2.1 h),
        fun h => hline2 (hch.2.2.1 h), fun h => hline2 (hch.2.2.2 h)⟩
  obtain ⟨hs, hc, hst, hz⟩ := hmost _ rfl
  have hphonesAll : ∀ v ∈ responsePerson.phones.getD [] ++ originalPerson.Phones.getD [],
      NoSemicolon (orEmpty v) := by
    intro v hv
    simp only [Person.Phones, Option.getD_none, List.append_nil] at hv
    exact hphones v hv
  have hemailsAll : ∀ v ∈ responsePerson.emails.getD [] ++ originalPerson.Emails.getD [],
      NoSemicolon (orEmpty v) := by
    intro v hv
    simp only [Person.Emails, Option.getD_none, List.append_nil] at hv
    exact hemails v hv
  have hname : NoSemicolon (jsTrim (orEmpty originalPerson.FirstName ++ [' '] ++
      orEmpty originalPerson.MiddleName ++ [' '] ++ orEmpty originalPerson.LastName)) := by
    intro h
    have h1 := mem_of_mem_jsTrim _ _ h
    simp only [List.mem_append, List.mem_singleton] at h1
    rcases h1 with (((h1 | h1) | h1) | h1) | h1
    · exact hfirst h1
    · exact absurd h1 (by decide)
    · exact hmiddle h1
    · exact absurd h1 (by decide)
    · exact hlast h1
  intro part hpart
  simp only [formatPersonParts, List.mem_cons, List.mem_singleton, List.not_mem_nil,
    or_false] at hpart
  rcases hpart with rfl | rfl | rfl | rfl | rfl | rfl | rfl | rfl | rfl
  · simp [NoSemicolon, Person.ID, orEmpty]
  · exact hdob
  · exact hname
  · exact hs
  · exact hc
  · exact hst
  · exact hz
  · exact noSemicolon_jsJoinValues _ hphonesAll
  · exact noSemicolon_jsJoinValues _ hemailsAll

/-- C15: for every response person and original Person whose string values
contain no `;`, the line returned by `formatPersonAsLine` splits on `;` into
exactly 9 fields, which are, in order, ID, DOB, full name, street, city,
state, zip, phones and emails; and the parser accepts the line (it has at
least 9 fields, so `parseData` returns one Person). -/
theorem output_line_nine_fields (today : CalendarDate) (responsePerson : ResponsePerson)
    (originalPerson : Person)
    (hp : originalPerson.NoSemicolon) (hr : responsePerson.NoSemicolon) :
    (jsSplit (fun c => c = ';') (formatPersonAsLine responsePerson originalPerson)).length = 9 ∧
    jsSplit (fun c => c = ';') (formatPersonAsLine responsePerson originalPerson)
      = [orEmpty originalPerson.ID,
         originalPerson.Dob,
         jsTrim (orEmpty originalPerson.FirstName ++ [' '] ++
           orEmpty originalPerson.MiddleName ++ [' '] ++ orEmpty originalPerson.LastName),
         orEmpty (((responsePerson.addresses.getD []).get? 0).getD
           (fallbackAddress originalPerson.Address)).street,
         orEmpty (((responsePerson.addresses.getD []).get? 0).getD
           (fallbackAddress originalPerson.Address)).city,
         orEmpty (((responsePerson.addresses.getD []).get? 0).getD
           (fallbackAddress originalPerson.Address)).state,
         orEmpty (((responsePerson.addresses.getD []).get? 0).getD
           (fallbackAddress originalPerson.Address)).zip,
         jsJoinValues ['|'] (responsePerson.phones.getD [] ++ originalPerson.Phones.getD []),
         jsJoinValues ['|'] (responsePerson.emails.getD [] ++ originalPerson.Emails.getD [])] ∧
    ∃ parsed, parseData today (formatPersonAsLine responsePerson originalPerson) = [parsed] := by
  have hsplit : jsSplit (fun c => c = ';') (formatPersonAsLine responsePerson originalPerson)
      = formatPersonParts responsePerson originalPerson := by
    unfold formatPersonAsLine
    apply jsSplit_jsJoin _ ';' (by simp) _ (by simp [formatPersonParts])
    intro part hpart c hc
    have := noSemicolon_parts responsePerson originalPerson hp hr part hpart
    simp only [decide_eq_false_iff_not]
    intro hceq
    subst hceq
    exact this hc
  have hlen9 : (formatPersonParts responsePerson originalPerson).length = 9 := by
    simp [formatPersonParts]
  refine ⟨by rw [hsplit, hlen9], by rw [hsplit]; rfl, ?_⟩
  have hlen : ¬ (jsSplit (fun c => c = ';')
      (jsTrim (formatPersonAsLine responsePerson originalPerson))).length < 9 := by
    rw [length_jsSplit, filter_jsTrim _ (by
      intro c hc
      simp only [decide_eq_false_iff_not]
      intro hceq
      subst hceq
      exact absurd hc (by decide)), ← length_jsSplit, hsplit, hlen9]
    omega
  unfold parseData
  simp only [hlen, if_false]
  exact ⟨_, rfl⟩

/-- Witness of C15: the Person of the spec's example line and a response with
one phone and one email give a line of nine fields. -/
theorem output_line_nine_fields_witness :
    johnPerson.NoSemicolon ∧ sampleResponse.NoSemicolon ∧
    jsSplit (fun c => c = ';') (formatPersonAsLine sampleResponse johnPerson)
      = ["".toList, "01/15/1980".toList, "John Middle Doe".toList, "123 Main St".toList,
         "Springfield".toList, "IL".toList, "62704".toList, "3125550199".toList,
         "jd@example.com".toList] ∧
    (jsSplit (fun c => c = ';') (formatPersonAsLine sampleResponse johnPerson)).length = 9 :=
  ⟨by unfold Person.NoSemicolon NoSemicolon; decide,
   by unfold ResponsePerson.NoSemicolon NoSemicolon; decide,
   by decide,
   (output_line_nine_fields exampleToday sampleResponse johnPerson
      (by unfold Person.NoSemicolon NoSemicolon; decide)
      (by unfold ResponsePerson.NoSemicolon NoSemicolon; decide)).1⟩

/-! ### Age: the calendar arithmetic of `new Date(year, month, day)` -/

/-- The Person parsed from a line does not depend on field 1: two lines whose
fields from the second on agree parse to the same result. -/
theorem parseData_ignores_first_field (today : CalendarDate) (line1 line2 : JsString)
    (htail : (jsSplit (fun c => c = ';') (jsTrim line1)).tail
      = (jsSplit (fun c => c = ';') (jsTrim line2)).tail) :
    parseData today line1 = parseData today line2 := by
  cases hp1 : jsSplit (fun c => c = ';') (jsTrim line1) with
  | nil => exact absurd hp1 (jsSplit_ne_nil _ _)
  | cons h1 t1 =>
    cases hp2 : jsSplit (fun c => c = ';') (jsTrim line2) with
    | nil => exact absurd hp2 (jsSplit_ne_nil _ _)
    | cons h2 t2 =>
      rw [hp1, hp2] at htail
      simp only [List.tail_cons] at htail
      subst htail
      simp only [parseData, hp1, hp2, List.length_cons, List.getD_cons_succ]

/-- The first `;`-separated field of every output line is empty. -/
theorem formatPersonAsLine_first_field (responsePerson : ResponsePerson) (person : Person) :
    (formatPersonParts responsePerson person).get? 0 = some [] ∧
    (jsSplit (fun c => c = ';') (formatPersonAsLine responsePerson person)).head? = some [] := by
  constructor
  · simp [formatPersonParts, Person.ID, orEmpty]
  · have hline : formatPersonAsLine responsePerson person
        = [] ++ ';' :: jsJoin [';'] ((formatPersonParts responsePerson person).tail) := by
      simp only [formatPersonAsLine, formatPersonParts, Person.ID, orEmpty, Option.getD_none,
        List.tail_cons]
      rw [jsJoin_cons_cons]
      rfl
    rw [hline, jsSplit_append_sep _ [] _ ';' (by simp) (by simp)]
    rfl

/-- C21: for every input line with at least 9 fields and every API response,
the first (ID) field of the output line of the parsed Person is the empty
string; the record identifier of input field 1 is not carried into the Person,
which is the same for every line that agrees from field 2 on. -/
theorem output_id_field_empty (today : CalendarDate) (line : JsString)
    (responsePerson : ResponsePerson)
    (hlen : ¬ (jsSplit (fun c => c = ';') (jsTrim line)).length < 9) :
    ∃ person, parseData today line = [person] ∧
      (formatPersonParts responsePerson person).get? 0 = some [] ∧
      (jsSplit (fun c => c = ';') (formatPersonAsLine responsePerson person)).head? = some [] ∧
      ∀ other : JsString,
        (jsSplit (fun c => c = ';') (jsTrim other)).tail
          = (jsSplit (fun c => c = ';') (jsTrim line)).tail →
        parseData today other = [person] := by
  have hparse : ∃ person, parseData today line = [person] := by
    unfold parseData
    simp only [hlen, if_false]
    exact ⟨_, rfl⟩
  obtain ⟨person, hperson⟩ := hparse
  refine ⟨person, hperson, (formatPersonAsLine_first_field responsePerson person).1,
    (formatPersonAsLine_first_field responsePerson person).2, ?_⟩
  intro other htail
  rw [parseData_ignores_first_field today other line htail, hperson]

/-- Witness of C21: the spec's example line has "ID1" in field 1, and so has
its variant "XY-777"; both parse to the same Person and the output line starts
with an empty field. -/
theorem output_id_field_empty_witness :
    ¬ (jsSplit (fun c => c = ';') (jsTrim johnLine)).length < 9 ∧
    (jsSplit (fun c => c = ';') (jsTrim johnLine)).head? = some "ID1".toList ∧
    parseData exampleToday johnLineOtherId = parseData exampleToday johnLine ∧
    (jsSplit (fun c => c = ';') (formatPersonAsLine sampleResponse johnPerson)).head? = some [] ∧
    ∃ person, parseData exampleToday johnLine = [person] ∧
      (formatPersonParts sampleResponse person).get? 0 = some [] ∧
      (jsSplit (fun c => c = ';') (formatPersonAsLine sampleResponse person)).head? = some [] ∧
      ∀ other : JsString,
        (jsSplit (fun c => c = ';') (jsTrim other)).tail
          = (jsSplit (fun c => c = ';') (jsTrim johnLine)).tail →
        parseData exampleToday other = [person] :=
  ⟨by decide, by decide, by decide, by decide,
   output_id_field_empty exampleToday johnLine sampleResponse (by decide)⟩

end Endato
